import Mathlib

/-!
Verification development for the `github_backup` repository
(`github_backup.py`, a Python 2 program).

The program is shallowly embedded: each Python function of the source
becomes a Lean function in explicit state-passing style.  The mutable
process state (current working directory, the set of existing directories,
and the ordered trace of observable actions) is threaded as a `St` value;
Python exceptions become an `Except Err` result.  The outside world
(the GitHub HTTP API, the spawned child processes, and the credential
file metadata) is a record of oracles, `World`, since those are external
collaborators of the program.

The source is Python 2: `sorted` over a list of dicts uses CPython 2
dict comparison (first by size, then by the alphabetically smallest key
at which the dicts differ, then by the value there), and byte strings
compare lexicographically.  Those semantics are reproduced below.
-/

namespace GithubBackup

/-! ## Python string / path primitives used by the source

String manipulation is implemented over `List Char` by structural
recursion, so that every definition evaluates inside the kernel. -/

/-- Whether `pre` is a prefix of `l`. -/
def isPrefixL (pre l : List Char) : Bool :=
  match pre, l with
  | [], _ => true
  | _ :: _, [] => false
  | a :: as2, b :: bs => a = b && isPrefixL as2 bs

/-- Python `s.startswith(pre)` / Lean `String.startsWith`. -/
def startsWithS (s pre : String) : Bool := isPrefixL pre.data s.data

/-- Python `s.endswith(suf)`. -/
def endsWithS (s suf : String) : Bool := isPrefixL suf.data.reverse s.data.reverse

def splitCharAux (c : Char) : List Char → List Char → List (List Char)
  | [], acc => [acc.reverse]
  | x :: xs, acc =>
    if x = c then acc.reverse :: splitCharAux c xs []
    else splitCharAux c xs (x :: acc)

/-- Split a character list at every occurrence of `c`. -/
def splitChar (c : Char) (l : List Char) : List (List Char) := splitCharAux c l []

/-- Join character lists with `c` between them. -/
def joinChar (c : Char) : List (List Char) → List Char
  | [] => []
  | [x] => x
  | x :: y :: xs => x ++ c :: joinChar c (y :: xs)

/-- `os.path.basename`: the part after the last slash. -/
def pyBasename (p : String) : String :=
  String.mk (((splitChar '/' p.data).getLast?).getD [])

/-- `os.path.dirname`: the part before the last slash. -/
def pyDirname (p : String) : String :=
  let d := String.mk (joinChar '/' ((splitChar '/' p.data).dropLast))
  if d = "" && startsWithS p "/" then "/" else d

/-- `os.path.expanduser`: substitute a leading tilde with the home directory. -/
def expanduser (home p : String) : String :=
  if startsWithS p "~/" then home ++ p.drop 1 else p

/-- Resolution of a (possibly relative) path against a working directory;
used for `os.path.abspath` and for the path that `os.chdir` acts on. -/
def resolvePath (cwd p : String) : String :=
  if startsWithS p "/" then p else cwd ++ "/" ++ p

/-- Python substring test `needle in hay`. -/
def strContains (hay needle : String) : Bool :=
  (List.range (hay.length + 1)).any fun i => startsWithS (hay.drop i) needle

/-- Python `str.rstrip()` (the source applies it to every line read
from the child process). -/
def pyRstrip (s : String) : String :=
  String.mk ((s.data.reverse.dropWhile Char.isWhitespace).reverse)

/-! ## Repository records and CPython 2 dict ordering

A repository record, as decoded from the GitHub JSON catalog, is a
Python dict; it is modelled as an association list of string fields
(the fields the program reads, `name` and `full_name`, are strings). -/

abbrev Repo := List (String × String)

/-- Python dict lookup (first binding wins). -/
def pyLookup (r : Repo) (k : String) : Option String :=
  match r with
  | [] => none
  | (k2, v) :: rest => if k2 = k then some v else pyLookup rest k

/-- The `name` field of a repository record, defaulting to the empty
string (records reaching the loop body always carry the field). -/
def nameF (r : Repo) : String := (pyLookup r "name").getD ""

def insertKey (k : String) : List String → List String
  | [] => [k]
  | k2 :: rest =>
    if compare k k2 = Ordering.lt then k :: k2 :: rest else k2 :: insertKey k rest

/-- Ascending sort of strings (used for the dict-key scan of CPython 2
dict comparison, and to phrase "sorted by name" in theorems). -/
def sortKeys : List String → List String
  | [] => []
  | k :: rest => insertKey k (sortKeys rest)

/-- CPython 2 `characterize`: the alphabetically smallest key of `a`
whose value is absent from, or different in, `b`, with its value in `a`. -/
def characterize (a b : Repo) : Option (String × String) :=
  (sortKeys (a.map Prod.fst)).findSome? fun k =>
    match pyLookup a k, pyLookup b k with
    | some va, some vb => if va = vb then none else some (k, va)
    | some va, none => some (k, va)
    | _, _ => none

/-- CPython 2 dict comparison: by size first, then by the smallest
differing key, then by the values at those keys. -/
def py2cmpRepo (a b : Repo) : Ordering :=
  if a.length = b.length then
    match characterize a b, characterize b a with
    | none, _ => Ordering.eq
    | _, none => Ordering.eq
    | some (ak, av), some (bk, bv) =>
      match compare ak bk with
      | Ordering.eq => compare av bv
      | o => o
  else compare a.length b.length

def py2Lt (a b : Repo) : Bool := py2cmpRepo a b = Ordering.lt

/-- Stable insertion for `pySorted`. -/
def py2Insert (x : Repo) : List Repo → List Repo
  | [] => [x]
  | y :: ys => if py2Lt y x then y :: py2Insert x ys else x :: y :: ys

/-- Python 2 `sorted` on a list of dicts (stable, uses dict comparison). -/
def pySorted : List Repo → List Repo
  | [] => []
  | x :: xs => py2Insert x (pySorted xs)

/-! ## Errors, log messages, observable effects, process state -/

/-- Python exception classes raised or caught by the source, plus a
fuel-exhaustion marker used only to make the unbounded pagination loop
a total function. -/
inductive Err
  | gbError (msg : String)
  | ioError (msg : String)
  | osError (msg : String)
  | valueError (msg : String)
  | typeError (msg : String)
  | keyError (msg : String)
  | keyboardInterrupt
  | outOfFuel
deriving DecidableEq

inductive LogLevel
  | debug | info | warning | error
deriving DecidableEq

/-- The log statements of the source, one constructor per `LOG.*` call
site, carrying the data interpolated into the format string. -/
inductive LogMsg
  | consideringRepo (repo_name full_name : String)
  | runningCmd (cmd : String)
  | creatingLocalRepo (repo_path : String)
  | updatingLocalRepo (repo_path : String)
  | updatingBranch (repo_name curr_branch : String)
  | currentDirectory (cwd : String)
  | gettingRepoList
  | request (url : String)
  | orgCount (org : String) (n : Nat)
  | procReturncode (code : Int)
  | dryRunBefore
  | dryRunAfter
  | stdoutLine (line : String)
  | stderrLine (line : String)
  | errorUpdatingRepo (repo_name : String) (err : Err)
  | mainFatal (err : Err)
deriving DecidableEq

/-- Observable actions of the process, in program order. -/
inductive Effect
  | log (level : LogLevel) (msg : LogMsg)
  | httpGet (url : String)
  | makedirs (path : String)
  | chdir (path : String)
  | spawn (cmd : String)
deriving DecidableEq

/-- Mutable process state: the current working directory, the set of
existing directories of the local filesystem, and the effect trace. -/
structure St where
  cwd : String
  dirs : List String
  trace : List Effect
deriving DecidableEq

def St.logAt (s : St) (lv : LogLevel) (m : LogMsg) : St :=
  { s with trace := s.trace ++ [Effect.log lv m] }

def St.emit (s : St) (e : Effect) : St :=
  { s with trace := s.trace ++ [e] }

/-- Result of running an embedded statement: a Python return value or
exception, together with the state it left behind. -/
abbrev Res (α : Type) := Except Err α × St

/-! ## The outside world -/

/-- A response body as far as the program decodes it: a JSON array of
repository records, or text that `json.loads` rejects. -/
inductive Body
  | jlist (repos : List Repo)
  | notJson (msg : String)
deriving DecidableEq

/-- Outcome of one `requests.get`: a transport-level failure (raised
inside `requests`), or a status code, reason and body. -/
inductive FetchResp
  | transportErr (msg : String)
  | resp (status : Nat) (reason : String) (body : Body)
deriving DecidableEq

/-- Behavior of one spawned child process: lines already buffered on its
pipes when the polling loop starts, lines appearing on (stdout, stderr)
at each tick the child is still alive, its exit code, and whether an
operator interrupt arrives while the command runs. -/
structure ChildBehavior where
  preOut : List String
  preErr : List String
  ticks : List (List String × List String)
  returncode : Int
  interrupt : Bool

/-- Read-only oracles for everything outside the process. -/
structure World where
  home : String
  fileExists : String → Bool
  statMode : String → Nat
  readFile : String → String
  http : String → FetchResp
  procs : String → ChildBehavior

/-- Parsed command-line arguments. -/
structure Args where
  org_name : String
  token_file : String
  local_repodir : String
  dry_run : Bool

/-- The `self.*` attributes assigned in `App.run`. -/
structure AppSt where
  org_name : String
  api_token : String
  local_repodir : String
  dry_run : Bool

/-! ## The embedded program -/

/-- `os.chdir`: resolve the path against the current directory; change
into it when it exists, raise `OSError` otherwise. -/
def osChdir (p : String) (s : St) : Res Unit :=
  let rp := resolvePath s.cwd p
  if s.dirs.contains rp then
    (Except.ok (), { s with cwd := rp, trace := s.trace ++ [Effect.chdir rp] })
  else
    (Except.error (Err.osError ("chdir failed: " ++ rp)), s)

/-- Modelled from the spec: the version-control client is an external
collaborator invoked through its command line; its clone operation,
given a secure-transport remote identity, creates a working copy named
after the repository under the invoking process's current directory.
No other client command changes the directory structure. -/
def applyCmdFs (cwd cmd : String) (dirs : List String) : List String :=
  if startsWithS cmd "git clone git@github.com:" && endsWithS cmd ".git" then
    dirs ++ [cwd ++ "/" ++ pyBasename (String.mk ((cmd.data.drop 25).dropLast.dropLast.dropLast.dropLast))]
  else dirs

/-- The polling loop of `App._run_system_cmd_nb`: while `proc.poll()` is
`None` (one iteration per element of `ticks`), attempt one non-blocking
`readline` from each of stdout and stderr, treating absence of data
(`IOError`) as a no-op; captured stdout lines accumulate in `acc` when
`capture` is set, and are logged otherwise.  When the child has exited
the loop ends at once; lines still buffered are not read again. -/
def nbPollLoop (capture : Bool) :
    List String → List String → List (List String × List String) →
    List String → St → List String × St
  | _, _, [], acc, s => (acc, s)
  | outBuf, errBuf, (o, e) :: rest, acc, s =>
    let outBuf := outBuf ++ o
    let errBuf := errBuf ++ e
    let (outBuf, acc, s) :=
      match outBuf with
      | [] => (outBuf, acc, s)
      | l :: ls =>
        if capture then (ls, acc ++ [pyRstrip l], s)
        else (ls, acc, s.logAt LogLevel.info (LogMsg.stdoutLine (pyRstrip l)))
    let (errBuf, s) :=
      match errBuf with
      | [] => (errBuf, s)
      | l :: ls => (ls, s.logAt LogLevel.error (LogMsg.stderrLine (pyRstrip l)))
    nbPollLoop capture outBuf errBuf rest acc s

/-- `App._run_system_cmd_nb`: log the command; in dry-run return `None`
without doing anything else; otherwise spawn the child, poll its two
streams until it exits, log its return code, and return the captured
stdout lines when `stdoutctl` requests them (`None` otherwise). -/
def runSystemCmdNb (w : World) (a : AppSt) (cmd stdoutctl : String) (s : St) :
    Res (Option (List String)) :=
  let s := s.logAt LogLevel.info (LogMsg.runningCmd cmd)
  if a.dry_run then (Except.ok none, s)
  else
    let child := w.procs cmd
    let s := s.emit (Effect.spawn cmd)
    let s := { s with dirs := applyCmdFs s.cwd cmd s.dirs }
    if child.interrupt then (Except.error Err.keyboardInterrupt, s)
    else
      let (rtn_lines, s) :=
        nbPollLoop (stdoutctl = "return") child.preOut child.preErr child.ticks [] s
      let s := s.logAt LogLevel.debug (LogMsg.procReturncode child.returncode)
      (Except.ok (if stdoutctl = "log" then none else some rtn_lines), s)

/-- The `for curr_branch in all_branches` body of `App._pull_all_branches`:
drop the first eight characters (the length of the literal
`"  origin"`), skip the entry when the remainder contains
`"origin/HEAD"`, otherwise log and run
`git branch <curr_branch> && git pull`. -/
def pullBranchLoop (w : World) (a : AppSt) (repo_name : String) :
    List String → St → Res Unit
  | [], s => (Except.ok (), s)
  | curr_branch :: rest, s =>
    let cbranch := curr_branch.drop 8
    if strContains cbranch "origin/HEAD" then
      pullBranchLoop w a repo_name rest s
    else
      let s := s.logAt LogLevel.info (LogMsg.updatingBranch repo_name curr_branch)
      match runSystemCmdNb w a ("git branch " ++ curr_branch ++ " && git pull") "log" s with
      | (Except.error e, s) => (Except.error e, s)
      | (Except.ok _, s) => pullBranchLoop w a repo_name rest s

/-- `App._pull_all_branches`: change into the repository directory, list
the remote-tracking branches with captured output, and iterate over the
resulting lines (iterating the `None` returned in dry-run raises
`TypeError`). -/
def pullAllBranches (w : World) (a : AppSt) (repo_name repo_path : String) (s : St) :
    Res Unit :=
  let s := s.logAt LogLevel.info (LogMsg.updatingLocalRepo repo_path)
  match osChdir repo_path s with
  | (Except.error e, s) => (Except.error e, s)
  | (Except.ok _, s) =>
    let s := s.logAt LogLevel.info (LogMsg.currentDirectory s.cwd)
    match runSystemCmdNb w a "git branch -r" "return" s with
    | (Except.error e, s) => (Except.error e, s)
    | (Except.ok none, s) =>
      (Except.error (Err.typeError "NoneType object is not iterable"), s)
    | (Except.ok (some all_branches), s) =>
      pullBranchLoop w a repo_name all_branches s

/-- `App._clone_repo_local`: the source computes
`os.path.basename(repo_path)` for the directory it changes into before
cloning, then runs `git clone git@github.com:<full_name>.git` and
changes into `repo_path`. -/
def cloneRepoLocal (w : World) (a : AppSt) (repo_path full_name : String) (s : St) :
    Res Unit :=
  let s := s.logAt LogLevel.info (LogMsg.creatingLocalRepo repo_path)
  let local_repodir := pyBasename repo_path
  match osChdir local_repodir s with
  | (Except.error e, s) => (Except.error e, s)
  | (Except.ok _, s) =>
    let s := s.logAt LogLevel.info (LogMsg.currentDirectory s.cwd)
    match runSystemCmdNb w a ("git clone git@github.com:" ++ full_name ++ ".git") "log" s with
    | (Except.error e, s) => (Except.error e, s)
    | (Except.ok _, s) => osChdir repo_path s

/-- The `for repo in sorted(repos_list)` body of `App._run_backups`:
read the record fields (outside the try block), log the repository
under consideration, branch on local existence, and catch every failure
of the clone or pull except `KeyboardInterrupt`, which is re-raised as
`IOError` and aborts the run. -/
def backupLoop (w : World) (a : AppSt) (local_repodir : String) :
    List Repo → St → Res Unit
  | [], s => (Except.ok (), s)
  | repo :: rest, s =>
    match pyLookup repo "name" with
    | none => (Except.error (Err.keyError "name"), s)
    | some repo_name =>
      match pyLookup repo "full_name" with
      | none => (Except.error (Err.keyError "full_name"), s)
      | some full_name =>
        let s := s.logAt LogLevel.info (LogMsg.consideringRepo repo_name full_name)
        let repo_path := local_repodir ++ "/" ++ repo_name
        let (r, s) :=
          if s.dirs.contains repo_path = false then
            cloneRepoLocal w a repo_path full_name s
          else
            pullAllBranches w a repo_name repo_path s
        match r with
        | Except.error Err.keyboardInterrupt =>
          (Except.error (Err.ioError "CTRL-C received, aborting"), s)
        | Except.error e =>
          let s := s.logAt LogLevel.error (LogMsg.errorUpdatingRepo repo_name e)
          backupLoop w a local_repodir rest s
        | Except.ok _ => backupLoop w a local_repodir rest s

/-- `App._run_backups`: absolutize the container directory once, create
it when missing, and run the loop over the sorted catalog. -/
def runBackups (w : World) (a : AppSt) (repos_list : List Repo) (s : St) : Res Unit :=
  let local_repodir := resolvePath s.cwd a.local_repodir
  if s.dirs.contains local_repodir = false then
    let s := { s with dirs := s.dirs ++ [local_repodir],
                      trace := s.trace ++ [Effect.makedirs local_repodir] }
    backupLoop w a local_repodir (pySorted repos_list) s
  else
    backupLoop w a local_repodir (pySorted repos_list) s

/-- The query URL built by `App._get_org_repos` for one page. -/
def queryUrl (org : String) (page : Nat) : String :=
  "https://api.github.com/orgs/" ++ org ++ "/repos?per_page=100&page=" ++ toString page

/-- The `while True` pagination loop of `App._get_org_repos`.  Per
iteration: build the query, log it, perform the GET (a transport
failure becomes `GBError` carrying the query and cause), decode the
body with `json.loads` (its failure is unwrapped and precedes the
status check), raise `GBError` on a non-200 status, stop on an empty
page, otherwise accumulate and advance the page number.  `fuel` only
bounds the recursion. -/
def fetchLoop (w : World) (a : AppSt) :
    Nat → Nat → List Repo → St → Res (List Repo)
  | 0, _, _, s => (Except.error Err.outOfFuel, s)
  | fuel + 1, page_number, repos_all, s =>
    let query_url := queryUrl a.org_name page_number
    let s := s.logAt LogLevel.debug (LogMsg.request query_url)
    let s := s.emit (Effect.httpGet query_url)
    match w.http query_url with
    | FetchResp.transportErr m =>
      (Except.error (Err.gbError
        ("error getting repos list from github, query=" ++ query_url ++ ", err=" ++ m)), s)
    | FetchResp.resp status reason body =>
      match body with
      | Body.notJson m => (Except.error (Err.valueError m), s)
      | Body.jlist repos_page =>
        if status ≠ 200 then
          (Except.error (Err.gbError
            ("error getting repos list from github, query=" ++ query_url ++
             ", status=" ++ toString status ++ ", reason=" ++ reason)), s)
        else if repos_page = [] then (Except.ok repos_all, s)
        else fetchLoop w a fuel (page_number + 1) (repos_all ++ repos_page) s

/-- `App._get_org_repos`. -/
def getOrgRepos (w : World) (a : AppSt) (fuel : Nat) (s : St) : Res (List Repo) :=
  let s := s.logAt LogLevel.info LogMsg.gettingRepoList
  match fetchLoop w a fuel 1 [] s with
  | (Except.error e, s) => (Except.error e, s)
  | (Except.ok repos_all, s) =>
    (Except.ok repos_all,
     s.logAt LogLevel.debug (LogMsg.orgCount a.org_name repos_all.length))

/-- `App._get_github_api_token`: expand the path, require the file to
exist, require the parent directory and the file to have no group or
other permission bits (`mode & 0777 & 0077` must be zero), then read
and right-strip the token. -/
def getGithubApiToken (w : World) (github_token_file : String) (s : St) : Res String :=
  let token_file := expanduser w.home github_token_file
  if w.fileExists token_file = false then
    (Except.error (Err.ioError ("missing file " ++ token_file ++ ", cannot proceed")), s)
  else
    let token_parent_dir := pyDirname token_file
    let perms := (w.statMode token_parent_dir) &&& 0o777
    if (perms &&& 0o77) ≠ 0 then
      (Except.error (Err.ioError
        ("bad permissions mode on directory " ++ token_parent_dir ++
         ", must be owner-access-only")), s)
    else
      let fperms := (w.statMode token_file) &&& 0o777
      if (fperms &&& 0o77) ≠ 0 then
        (Except.error (Err.ioError
          ("bad permissions mode on file " ++ token_file ++
           ", must be owner-access-only")), s)
      else
        (Except.ok (pyRstrip (w.readFile token_file)), s)

/-- `App.run`: read the token, build the application attributes, warn in
dry-run, fetch the catalog, and run the backups. -/
def appRun (w : World) (args : Args) (fuel : Nat) (s : St) : Res Unit :=
  match getGithubApiToken w args.token_file s with
  | (Except.error e, s) => (Except.error e, s)
  | (Except.ok api_token, s) =>
    let a : AppSt :=
      { org_name := args.org_name, api_token := api_token,
        local_repodir := args.local_repodir, dry_run := args.dry_run }
    let s := if a.dry_run then s.logAt LogLevel.warning LogMsg.dryRunBefore else s
    match getOrgRepos w a fuel s with
    | (Except.error e, s) => (Except.error e, s)
    | (Except.ok repos_list, s) =>
      match runBackups w a repos_list s with
      | (Except.error e, s) => (Except.error e, s)
      | (Except.ok _, s) =>
        (Except.ok (),
         if a.dry_run then s.logAt LogLevel.warning LogMsg.dryRunAfter else s)

/-- `App.main`: catch `IOError` and `GBError`, log them and exit with
status 1; a clean run exits 0; any other exception propagates out of
the program uncaught. -/
def appMain (w : World) (args : Args) (fuel : Nat) (s : St) : Res Nat :=
  match appRun w args fuel s with
  | (Except.ok _, s) => (Except.ok 0, s)
  | (Except.error (Err.ioError m), s) =>
    (Except.ok 1, s.logAt LogLevel.error (LogMsg.mainFatal (Err.ioError m)))
  | (Except.error (Err.gbError m), s) =>
    (Except.ok 1, s.logAt LogLevel.error (LogMsg.mainFatal (Err.gbError m)))
  | (Except.error e, s) => (Except.error e, s)

/-! ## Trace observers -/

/-- The repositories the orchestrator loop announced as considered,
in order. -/
def consideredNames (tr : List Effect) : List String :=
  tr.filterMap fun e =>
    match e with
    | Effect.log _ (LogMsg.consideringRepo n _) => some n
    | _ => none

/-- The commands the process runner logged (also logged in dry-run). -/
def loggedCmds (tr : List Effect) : List String :=
  tr.filterMap fun e =>
    match e with
    | Effect.log _ (LogMsg.runningCmd c) => some c
    | _ => none

/-- The external commands actually executed. -/
def spawnedCmds (tr : List Effect) : List String :=
  tr.filterMap fun e =>
    match e with
    | Effect.spawn c => some c
    | _ => none

/-- The network requests actually issued. -/
def httpGets (tr : List Effect) : List String :=
  tr.filterMap fun e =>
    match e with
    | Effect.httpGet u => some u
    | _ => none

/-- The successful working-directory changes, in order. -/
def chdirTargets (tr : List Effect) : List String :=
  tr.filterMap fun e =>
    match e with
    | Effect.chdir p => some p
    | _ => none

/-- The directories created, in order. -/
def makedirsPaths (tr : List Effect) : List String :=
  tr.filterMap fun e =>
    match e with
    | Effect.makedirs p => some p
    | _ => none

/-- The repositories whose processing failure the loop logged, in order. -/
def erroredRepos (tr : List Effect) : List String :=
  tr.filterMap fun e =>
    match e with
    | Effect.log _ (LogMsg.errorUpdatingRepo nm _) => some nm
    | _ => none

/-- The three observers that the synchronizer and runner must leave
unchanged, bundled for chaining. -/
def quietObs (tr : List Effect) : List String × List String × List String :=
  (consideredNames tr, httpGets tr, makedirsPaths tr)

/-! ## Page bookkeeping for the pagination theorems -/

/-- Concatenation of `n` pages starting at page `start`. -/
def pagesConcat (P : Nat → List Repo) (start n : Nat) : List Repo :=
  match n with
  | 0 => []
  | n + 1 => P start ++ pagesConcat P (start + 1) n

/-- The query URLs for `n` pages starting at page `start`. -/
def pageUrls (org : String) (start n : Nat) : List String :=
  match n with
  | 0 => []
  | n + 1 => queryUrl org start :: pageUrls org (start + 1) n

/-- The trace the pagination loop leaves for `n` requests starting at
page `start`. -/
def pageTrace (org : String) (start n : Nat) : List Effect :=
  match n with
  | 0 => []
  | n + 1 =>
    Effect.log LogLevel.debug (LogMsg.request (queryUrl org start)) ::
    Effect.httpGet (queryUrl org start) :: pageTrace org (start + 1) n

/-! ## Concrete worlds, states and catalogs used to settle the claims -/

/-- A child process that exits at once with no output. -/
def child0 : ChildBehavior :=
  { preOut := [], preErr := [], ticks := [], returncode := 0, interrupt := false }

/-- The listing a repository with a default branch produces for
`git branch -r`: the symbolic HEAD arrow entry, then one real branch. -/
def branchListing : List String :=
  ["  origin/HEAD -> origin/master", "  origin/master"]

/-- A child process for `git branch -r` that has the two-line listing
buffered and stays alive for two polling ticks, so both lines are read. -/
def childBranches : ChildBehavior :=
  { preOut := branchListing, preErr := [], ticks := [([], []), ([], [])],
    returncode := 0, interrupt := false }

/-- A child process that has already exited when the first poll happens,
with one line still buffered on stdout. -/
def childPre : ChildBehavior :=
  { preOut := ["hello"], preErr := [], ticks := [], returncode := 0, interrupt := false }

/-- A child process that is alive for a single tick during which it
emits two stdout lines, then exits. -/
def childTwo : ChildBehavior :=
  { preOut := [], preErr := [], ticks := [(["a", "b"], [])],
    returncode := 0, interrupt := false }

/-- A world whose API always answers an empty page, whose credential
file is owner-only, and whose child processes exit silently. -/
def wQuiet : World :=
  { home := "/home/u", fileExists := fun _ => true, statMode := fun _ => 0o700,
    readFile := fun _ => "tok",
    http := fun _ => FetchResp.resp 200 "OK" (Body.jlist []),
    procs := fun _ => child0 }

/-- `wQuiet` where every command behaves as `childPre`. -/
def wPre : World := { wQuiet with procs := fun _ => childPre }

/-- `wQuiet` where every command behaves as `childTwo`. -/
def wTwo : World := { wQuiet with procs := fun _ => childTwo }

/-- `wQuiet` with the two-line branch listing on `git branch -r`. -/
def wBranches : World :=
  { wQuiet with
    procs := fun c => if c = "git branch -r" then childBranches else child0 }

/-- `wQuiet` with every request failing at the transport level. -/
def wTransport : World :=
  { wQuiet with http := fun _ => FetchResp.transportErr "timeout" }

/-- `wQuiet` answering every request with a non-success status and a
JSON body. -/
def wStatus : World :=
  { wQuiet with http := fun _ => FetchResp.resp 403 "Forbidden" (Body.jlist []) }

/-- `wQuiet` answering every request with status 200 and a body that
`json.loads` rejects. -/
def wJsonBad : World :=
  { wQuiet with http := fun _ => FetchResp.resp 200 "OK" (Body.notJson "no json") }

/-- One full page for the pagination witness. -/
def pageOne : List Repo := [[("full_name", "o/r1"), ("name", "r1")]]

/-- `wQuiet` serving `pageOne` on page 1 and an empty page afterwards. -/
def wPages : World :=
  { wQuiet with
    http := fun u =>
      if u = queryUrl "o" 1 then FetchResp.resp 200 "OK" (Body.jlist pageOne)
      else FetchResp.resp 200 "OK" (Body.jlist []) }

/-- `wQuiet` with a group-readable credential file. -/
def wPerm : World :=
  { wQuiet with
    statMode := fun p => if p = "/home/u/.ssh/github_api_token" then 0o640 else 0o700 }

/-- Application attributes of a normal (non-dry) run against `/b`. -/
def aNorm : AppSt :=
  { org_name := "o", api_token := "t", local_repodir := "/b", dry_run := false }

/-- `aNorm` in dry-run mode. -/
def aDry : AppSt := { aNorm with dry_run := true }

/-- Application attributes of a normal run against `/backups`. -/
def aBackups : AppSt :=
  { org_name := "o", api_token := "t", local_repodir := "/backups", dry_run := false }

/-- Standard command-line arguments. -/
def argsStd : Args :=
  { org_name := "o", token_file := "~/.ssh/github_api_token",
    local_repodir := "/b", dry_run := false }

/-- Start state: in the home directory, with the container `/b` and a
working copy `/b/myrepo` already present. -/
def sHome : St := { cwd := "/home/u", dirs := ["/home/u", "/b", "/b/myrepo"], trace := [] }

/-- Start state with the container `/backups` present and empty. -/
def sBackups : St := { cwd := "/home/u", dirs := ["/home/u", "/backups"], trace := [] }

/-- Start state where the container directory does not exist yet. -/
def sNoDir : St := { cwd := "/home/u", dirs := ["/home/u"], trace := [] }

/-- Start state with two working copies `/b/alpha` and `/b/beta` present. -/
def sTwoRepos : St :=
  { cwd := "/home/u", dirs := ["/home/u", "/b", "/b/alpha", "/b/beta"], trace := [] }

/-- A catalog of one repository, `alpha`, absent locally in `sBackups`. -/
def catAlpha : List Repo := [[("full_name", "org/alpha"), ("name", "alpha")]]

/-- A catalog of one repository, `myrepo`, present locally in `sHome`. -/
def catMyrepo : List Repo := [[("full_name", "org/myrepo"), ("name", "myrepo")]]

/-- A catalog of two present repositories, named so that the processing
order is visible. -/
def catTwo : List Repo :=
  [[("full_name", "org/beta"), ("name", "beta")],
   [("full_name", "org/alpha"), ("name", "alpha")]]

/-- Two repository records as the GitHub API reports them: besides
`name` and `full_name` they carry a `description` field, and
`description` is alphabetically the smallest key.  Their descriptions
order opposite to their names. -/
def catDescr : List Repo :=
  [[("description", "a"), ("full_name", "org/zeta"), ("name", "zeta")],
   [("description", "b"), ("full_name", "org/alpha"), ("name", "alpha")]]

/-- The example catalog of the spec, with names `zeta`, `alpha`, `mu`,
each record carrying the two fields the program reads. -/
def catZam : List Repo :=
  [[("full_name", "org/zeta"), ("name", "zeta")],
   [("full_name", "org/alpha"), ("name", "alpha")],
   [("full_name", "org/mu"), ("name", "mu")]]

/-- A three-repository catalog for the failure-isolation scenario. -/
def catThree : List Repo :=
  [[("full_name", "org/alpha"), ("name", "alpha")],
   [("full_name", "org/bravo"), ("name", "bravo")],
   [("full_name", "org/carol"), ("name", "carol")]]

/-- Start state for `catThree`: `alpha` and `carol` are present, `bravo`
is absent, so its clone is forced to fail (there is no directory for the
mistaken relative `chdir` to land in). -/
def sThree : St :=
  { cwd := "/home/u", dirs := ["/home/u", "/b", "/b/alpha", "/b/carol"], trace := [] }

/-- Whether an error is the catalog-fetch error class `GBError`. -/
def Err.isGb : Err → Bool
  | Err.gbError _ => true
  | _ => false

/-- Whether a result is a failure of the catalog-fetch error class. -/
def failedWithGb {α : Type} : Except Err α → Bool
  | Except.error e => e.isGb
  | Except.ok _ => false

/-- The relation between a state and a later state: the trace only ever
grows, and the working directory is wherever the last successful
`chdir` recorded in the meantime pointed (unchanged when there was
none).  Nothing in the program restores the working directory except a
further `chdir`. -/
def cwdTracks (s s2 : St) : Prop :=
  ∃ Δ, s2.trace = s.trace ++ Δ ∧ s2.cwd = (chdirTargets Δ).getLastD s.cwd

/-! ## Small lemmas about observers and state helpers -/

@[simp] theorem logAt_cwd (s : St) (lv m) : (s.logAt lv m).cwd = s.cwd := rfl
@[simp] theorem logAt_dirs (s : St) (lv m) : (s.logAt lv m).dirs = s.dirs := rfl
@[simp] theorem logAt_trace (s : St) (lv m) :
    (s.logAt lv m).trace = s.trace ++ [Effect.log lv m] := rfl
@[simp] theorem emit_cwd (s : St) (e) : (s.emit e).cwd = s.cwd := rfl
@[simp] theorem emit_dirs (s : St) (e) : (s.emit e).dirs = s.dirs := rfl
@[simp] theorem emit_trace (s : St) (e) : (s.emit e).trace = s.trace ++ [e] := rfl

@[simp] theorem consideredNames_append (a b : List Effect) :
    consideredNames (a ++ b) = consideredNames a ++ consideredNames b :=
  List.filterMap_append a b _

@[simp] theorem httpGets_append (a b : List Effect) :
    httpGets (a ++ b) = httpGets a ++ httpGets b :=
  List.filterMap_append a b _

@[simp] theorem makedirsPaths_append (a b : List Effect) :
    makedirsPaths (a ++ b) = makedirsPaths a ++ makedirsPaths b :=
  List.filterMap_append a b _

@[simp] theorem chdirTargets_append (a b : List Effect) :
    chdirTargets (a ++ b) = chdirTargets a ++ chdirTargets b :=
  List.filterMap_append a b _

@[simp] theorem spawnedCmds_append (a b : List Effect) :
    spawnedCmds (a ++ b) = spawnedCmds a ++ spawnedCmds b :=
  List.filterMap_append a b _

@[simp] theorem loggedCmds_append (a b : List Effect) :
    loggedCmds (a ++ b) = loggedCmds a ++ loggedCmds b :=
  List.filterMap_append a b _

/-! ## Invariance lemmas for the process runner -/

/-- The polling loop touches neither the working directory nor the
directory structure, and its trace additions are plain output logs. -/
theorem nbPollLoop_st (c : Bool) :
    ∀ (t : List (List String × List String)) ob eb acc (s : St),
      (nbPollLoop c ob eb t acc s).2.cwd = s.cwd ∧
      (nbPollLoop c ob eb t acc s).2.dirs = s.dirs ∧
      consideredNames (nbPollLoop c ob eb t acc s).2.trace = consideredNames s.trace ∧
      httpGets (nbPollLoop c ob eb t acc s).2.trace = httpGets s.trace ∧
      makedirsPaths (nbPollLoop c ob eb t acc s).2.trace = makedirsPaths s.trace ∧
      chdirTargets (nbPollLoop c ob eb t acc s).2.trace = chdirTargets s.trace := by
  intro t
  induction t with
  | nil => intro ob eb acc s; simp [nbPollLoop]
  | cons hd rest ih =>
    intro ob eb acc s
    obtain ⟨o, e⟩ := hd
    simp only [nbPollLoop]
    cases houtBuf : ob ++ o with
    | nil =>
      cases herrBuf : eb ++ e with
      | nil => exact ih _ _ _ _
      | cons l ls =>
        have h := ih [] ls acc (s.logAt LogLevel.error (LogMsg.stderrLine (pyRstrip l)))
        simpa [consideredNames, httpGets, makedirsPaths, chdirTargets,
          List.filterMap] using h
    | cons l ls =>
      cases c with
      | false =>
        cases herrBuf : eb ++ e with
        | nil =>
          have h := ih ls [] acc (s.logAt LogLevel.info (LogMsg.stdoutLine (pyRstrip l)))
          simpa [consideredNames, httpGets, makedirsPaths, chdirTargets,
            List.filterMap] using h
        | cons l2 ls2 =>
          have h := ih ls ls2 acc
            ((s.logAt LogLevel.info (LogMsg.stdoutLine (pyRstrip l))).logAt
              LogLevel.error (LogMsg.stderrLine (pyRstrip l2)))
          simpa [consideredNames, httpGets, makedirsPaths, chdirTargets,
            List.filterMap] using h
      | true =>
        cases herrBuf : eb ++ e with
        | nil => exact ih _ _ _ _
        | cons l2 ls2 =>
          have h := ih ls ls2 (acc ++ [pyRstrip l])
            (s.logAt LogLevel.error (LogMsg.stderrLine (pyRstrip l2)))
          simpa [consideredNames, httpGets, makedirsPaths, chdirTargets,
            List.filterMap] using h

/-- The runner leaves the working directory alone and adds neither
`consideringRepo` logs nor network, directory-creation or `chdir`
effects to the trace. -/
theorem runSystemCmdNb_st (w : World) (a : AppSt) (cmd ctl : String) (s : St) :
    (runSystemCmdNb w a cmd ctl s).2.cwd = s.cwd ∧
    consideredNames (runSystemCmdNb w a cmd ctl s).2.trace = consideredNames s.trace ∧
    httpGets (runSystemCmdNb w a cmd ctl s).2.trace = httpGets s.trace ∧
    makedirsPaths (runSystemCmdNb w a cmd ctl s).2.trace = makedirsPaths s.trace ∧
    chdirTargets (runSystemCmdNb w a cmd ctl s).2.trace = chdirTargets s.trace := by
  unfold runSystemCmdNb
  cases hdry : a.dry_run with
  | true =>
    simp [consideredNames, httpGets, makedirsPaths, chdirTargets, List.filterMap]
  | false =>
    simp only [Bool.false_eq_true, if_false]
    cases hint : (w.procs cmd).interrupt with
    | true =>
      simp [consideredNames, httpGets, makedirsPaths, chdirTargets, List.filterMap]
    | false =>
      simp only [Bool.false_eq_true, if_false]
      have h := nbPollLoop_st (ctl = "return") (w.procs cmd).ticks
        (w.procs cmd).preOut (w.procs cmd).preErr []
        { cwd := s.cwd, dirs := applyCmdFs s.cwd cmd s.dirs,
          trace := s.trace ++ [Effect.log LogLevel.info (LogMsg.runningCmd cmd), Effect.spawn cmd] }
      rcases h with ⟨h1, h2, h3, h4, h5, h6⟩
      refine ⟨?_, ?_, ?_, ?_, ?_⟩
      · simpa using h1
      · simpa [consideredNames, List.filterMap] using h3
      · simpa [httpGets, List.filterMap] using h4
      · simpa [makedirsPaths, List.filterMap] using h5
      · simpa [chdirTargets, List.filterMap] using h6

/-- Without an operator interrupt the runner always returns normally. -/
theorem runSystemCmdNb_ok (w : World) (a : AppSt) (cmd ctl : String) (s : St)
    (hni : (w.procs cmd).interrupt = false) :
    ∃ v, (runSystemCmdNb w a cmd ctl s).1 = Except.ok v := by
  unfold runSystemCmdNb
  cases hdry : a.dry_run with
  | true => exact ⟨none, rfl⟩
  | false =>
    simp only [Bool.false_eq_true, if_false, hni]
    exact ⟨_, rfl⟩

/-- The branch loop: same invariances as the runner, plus normal
termination when no interrupt can arrive. -/
theorem pullBranchLoop_st (w : World) (a : AppSt) (rn : String) :
    ∀ (bs : List String) (s : St),
      (pullBranchLoop w a rn bs s).2.cwd = s.cwd ∧
      consideredNames (pullBranchLoop w a rn bs s).2.trace = consideredNames s.trace ∧
      httpGets (pullBranchLoop w a rn bs s).2.trace = httpGets s.trace ∧
      makedirsPaths (pullBranchLoop w a rn bs s).2.trace = makedirsPaths s.trace ∧
      chdirTargets (pullBranchLoop w a rn bs s).2.trace = chdirTargets s.trace := by
  intro bs
  induction bs with
  | nil => intro s; simp [pullBranchLoop]
  | cons b rest ih =>
    intro s
    simp only [pullBranchLoop]
    by_cases hb : strContains (b.drop 8) "origin/HEAD"
    · simpa [hb] using ih s
    · simp only [hb, Bool.false_eq_true, if_false]
      rcases hrun : runSystemCmdNb w a ("git branch " ++ b ++ " && git pull") "log"
          (s.logAt LogLevel.info (LogMsg.updatingBranch rn b)) with ⟨r, s2⟩
      have hst := runSystemCmdNb_st w a ("git branch " ++ b ++ " && git pull") "log"
        (s.logAt LogLevel.info (LogMsg.updatingBranch rn b))
      rw [hrun] at hst
      rcases hst with ⟨k1, k2, k3, k4, k5⟩
      cases r with
      | error e =>
        simp only []
        refine ⟨by simpa using k1, ?_, ?_, ?_, ?_⟩
        · simpa [consideredNames, List.filterMap] using k2
        · simpa [httpGets, List.filterMap] using k3
        · simpa [makedirsPaths, List.filterMap] using k4
        · simpa [chdirTargets, List.filterMap] using k5
      | ok v =>
        simp only []
        have h := ih s2
        refine ⟨?_, ?_, ?_, ?_, ?_⟩
        · rw [h.1]; simpa using k1
        · rw [h.2.1, k2]; simp [consideredNames, List.filterMap]
        · rw [h.2.2.1, k3]; simp [httpGets, List.filterMap]
        · rw [h.2.2.2.1, k4]; simp [makedirsPaths, List.filterMap]
        · rw [h.2.2.2.2, k5]; simp [chdirTargets, List.filterMap]

/-- Without interrupts the branch loop never raises. -/
theorem pullBranchLoop_ok (w : World) (a : AppSt) (rn : String)
    (hni : ∀ c, (w.procs c).interrupt = false) :
    ∀ (bs : List String) (s : St),
      (pullBranchLoop w a rn bs s).1 = Except.ok () := by
  intro bs
  induction bs with
  | nil => intro s; simp [pullBranchLoop]
  | cons b rest ih =>
    intro s
    simp only [pullBranchLoop]
    by_cases hb : strContains (b.drop 8) "origin/HEAD"
    · simpa [hb] using ih s
    · simp only [hb, Bool.false_eq_true, if_false]
      rcases hrun : runSystemCmdNb w a ("git branch " ++ b ++ " && git pull") "log"
          (s.logAt LogLevel.info (LogMsg.updatingBranch rn b)) with ⟨r, s2⟩
      obtain ⟨v, hv⟩ := runSystemCmdNb_ok w a ("git branch " ++ b ++ " && git pull") "log"
        (s.logAt LogLevel.info (LogMsg.updatingBranch rn b)) (hni _)
      rw [hrun] at hv
      subst hv
      simpa using ih s2

/-- Appending effects none of the three quiet observers pick up leaves
`quietObs` unchanged. -/
theorem quietObs_append (tr Δ : List Effect) (h : quietObs Δ = ([], [], [])) :
    quietObs (tr ++ Δ) = quietObs tr := by
  have h1 : consideredNames Δ = [] := congrArg Prod.fst h
  have h2 : httpGets Δ = [] := congrArg (fun p => p.2.1) h
  have h3 : makedirsPaths Δ = [] := congrArg (fun p => p.2.2) h
  simp [quietObs, h1, h2, h3]

/-- `os.chdir` leaves the quiet observers unchanged (it records only a
`chdir` effect), and never changes the directory structure. -/
theorem osChdir_quiet (p : String) (s : St) :
    quietObs (osChdir p s).2.trace = quietObs s.trace ∧
    (osChdir p s).2.dirs = s.dirs := by
  by_cases h : resolvePath s.cwd p ∈ s.dirs <;>
    simp [osChdir, h, quietObs, consideredNames, httpGets, makedirsPaths, List.filterMap]

/-- The runner leaves the quiet observers unchanged. -/
theorem runSystemCmdNb_quiet (w : World) (a : AppSt) (cmd ctl : String) (s : St) :
    quietObs (runSystemCmdNb w a cmd ctl s).2.trace = quietObs s.trace := by
  have h := runSystemCmdNb_st w a cmd ctl s
  simp [quietObs, h.2.1, h.2.2.1, h.2.2.2.1]

/-- The branch loop leaves the quiet observers unchanged. -/
theorem pullBranchLoop_quiet (w : World) (a : AppSt) (rn : String)
    (bs : List String) (s : St) :
    quietObs (pullBranchLoop w a rn bs s).2.trace = quietObs s.trace := by
  have h := pullBranchLoop_st w a rn bs s
  simp [quietObs, h.2.1, h.2.2.1, h.2.2.2.1]

/-- One log entry that the quiet observers ignore. -/
theorem quietObs_logAt (s : St) (lv : LogLevel) (m : LogMsg)
    (h : quietObs [Effect.log lv m] = ([], [], [])) :
    quietObs (s.logAt lv m).trace = quietObs s.trace := by
  rw [logAt_trace]; exact quietObs_append _ _ h

/-- The pull path adds neither `consideringRepo` logs nor network nor
directory-creation effects. -/
theorem pullAllBranches_quiet (w : World) (a : AppSt) (rn rp : String) (s : St) :
    quietObs (pullAllBranches w a rn rp s).2.trace = quietObs s.trace := by
  have hlog1 : quietObs (s.logAt LogLevel.info (LogMsg.updatingLocalRepo rp)).trace
      = quietObs s.trace := quietObs_logAt s _ _ rfl
  simp only [pullAllBranches]
  split
  next e sc heq =>
    have h0 := (osChdir_quiet rp (s.logAt LogLevel.info (LogMsg.updatingLocalRepo rp))).1
    rw [heq] at h0
    exact h0.trans hlog1
  next u sc heq =>
    have h0 := (osChdir_quiet rp (s.logAt LogLevel.info (LogMsg.updatingLocalRepo rp))).1
    rw [heq] at h0
    have hsc : quietObs sc.trace = quietObs s.trace := h0.trans hlog1
    have hlog2 : quietObs (sc.logAt LogLevel.info (LogMsg.currentDirectory sc.cwd)).trace
        = quietObs sc.trace := quietObs_logAt sc _ _ rfl
    split
    next e2 s4 heq2 =>
      have hq := runSystemCmdNb_quiet w a "git branch -r" "return"
        (sc.logAt LogLevel.info (LogMsg.currentDirectory sc.cwd))
      rw [heq2] at hq
      exact hq.trans (hlog2.trans hsc)
    next s4 heq2 =>
      have hq := runSystemCmdNb_quiet w a "git branch -r" "return"
        (sc.logAt LogLevel.info (LogMsg.currentDirectory sc.cwd))
      rw [heq2] at hq
      exact hq.trans (hlog2.trans hsc)
    next bs s4 heq2 =>
      have hq := runSystemCmdNb_quiet w a "git branch -r" "return"
        (sc.logAt LogLevel.info (LogMsg.currentDirectory sc.cwd))
      rw [heq2] at hq
      exact (pullBranchLoop_quiet w a rn bs s4).trans (hq.trans (hlog2.trans hsc))

/-- The clone path adds neither `consideringRepo` logs nor network nor
directory-creation effects (the clone itself appears as a `spawn`). -/
theorem cloneRepoLocal_quiet (w : World) (a : AppSt) (rp fn : String) (s : St) :
    quietObs (cloneRepoLocal w a rp fn s).2.trace = quietObs s.trace := by
  have hlog1 : quietObs (s.logAt LogLevel.info (LogMsg.creatingLocalRepo rp)).trace
      = quietObs s.trace := quietObs_logAt s _ _ rfl
  simp only [cloneRepoLocal]
  split
  next e sc heq =>
    have h0 := (osChdir_quiet (pyBasename rp)
      (s.logAt LogLevel.info (LogMsg.creatingLocalRepo rp))).1
    rw [heq] at h0
    exact h0.trans hlog1
  next u sc heq =>
    have h0 := (osChdir_quiet (pyBasename rp)
      (s.logAt LogLevel.info (LogMsg.creatingLocalRepo rp))).1
    rw [heq] at h0
    have hsc : quietObs sc.trace = quietObs s.trace := h0.trans hlog1
    have hlog2 : quietObs (sc.logAt LogLevel.info (LogMsg.currentDirectory sc.cwd)).trace
        = quietObs sc.trace := quietObs_logAt sc _ _ rfl
    split
    next e2 s4 heq2 =>
      have hq := runSystemCmdNb_quiet w a ("git clone git@github.com:" ++ fn ++ ".git") "log"
        (sc.logAt LogLevel.info (LogMsg.currentDirectory sc.cwd))
      rw [heq2] at hq
      exact hq.trans (hlog2.trans hsc)
    next v s4 heq2 =>
      have hq := runSystemCmdNb_quiet w a ("git clone git@github.com:" ++ fn ++ ".git") "log"
        (sc.logAt LogLevel.info (LogMsg.currentDirectory sc.cwd))
      rw [heq2] at hq
      exact ((osChdir_quiet rp s4).1).trans (hq.trans (hlog2.trans hsc))
/-- `os.chdir` fails only with `OSError`. -/
theorem osChdir_err (p : String) (s : St) (e : Err)
    (h : (osChdir p s).1 = Except.error e) : ∃ m, e = Err.osError m := by
  by_cases hm : resolvePath s.cwd p ∈ s.dirs
  · simp [osChdir, hm] at h
  · simp [osChdir, hm] at h
    exact ⟨_, h.symm⟩

/-- Without interrupts the pull path never raises `KeyboardInterrupt`. -/
theorem pullAllBranches_noIntr (w : World) (a : AppSt) (rn rp : String) (s : St)
    (hni : ∀ c, (w.procs c).interrupt = false) :
    (pullAllBranches w a rn rp s).1 ≠ Except.error Err.keyboardInterrupt := by
  simp only [pullAllBranches]
  split
  next e sc heq =>
    intro hcontra
    obtain ⟨m, hm⟩ := osChdir_err rp (s.logAt LogLevel.info (LogMsg.updatingLocalRepo rp))
      e (by rw [heq])
    rw [show e = Err.keyboardInterrupt from Except.error.inj hcontra] at hm
    exact Err.noConfusion hm
  next u sc heq =>
    split
    next e2 s4 heq2 =>
      obtain ⟨v, hv⟩ := runSystemCmdNb_ok w a "git branch -r" "return"
        (sc.logAt LogLevel.info (LogMsg.currentDirectory sc.cwd)) (hni _)
      rw [heq2] at hv
      exact absurd hv (by simp)
    next s4 heq2 =>
      intro hcontra
      exact Err.noConfusion (Except.error.inj hcontra)
    next bs s4 heq2 =>
      rw [pullBranchLoop_ok w a rn hni bs s4]
      simp

/-- Without interrupts the clone path never raises `KeyboardInterrupt`. -/
theorem cloneRepoLocal_noIntr (w : World) (a : AppSt) (rp fn : String) (s : St)
    (hni : ∀ c, (w.procs c).interrupt = false) :
    (cloneRepoLocal w a rp fn s).1 ≠ Except.error Err.keyboardInterrupt := by
  simp only [cloneRepoLocal]
  split
  next e sc heq =>
    intro hcontra
    obtain ⟨m, hm⟩ := osChdir_err (pyBasename rp)
      (s.logAt LogLevel.info (LogMsg.creatingLocalRepo rp)) e (by rw [heq])
    rw [show e = Err.keyboardInterrupt from Except.error.inj hcontra] at hm
    exact Err.noConfusion hm
  next u sc heq =>
    split
    next e2 s4 heq2 =>
      obtain ⟨v, hv⟩ := runSystemCmdNb_ok w a ("git clone git@github.com:" ++ fn ++ ".git")
        "log" (sc.logAt LogLevel.info (LogMsg.currentDirectory sc.cwd)) (hni _)
      rw [heq2] at hv
      exact absurd hv (by simp)
    next v s4 heq2 =>
      intro hcontra
      obtain ⟨m, hm⟩ := osChdir_err rp s4 Err.keyboardInterrupt hcontra
      exact Err.noConfusion hm

/-- The orchestrator loop: with the record fields present and no
operator interrupt, it never aborts and announces every repository of
its input list exactly once, in list order. -/
theorem backupLoop_main (w : World) (a : AppSt) (d : String)
    (hni : ∀ c, (w.procs c).interrupt = false) :
    ∀ (l : List Repo) (s : St),
      (∀ r ∈ l, (pyLookup r "name").isSome ∧ (pyLookup r "full_name").isSome) →
      (backupLoop w a d l s).1 = Except.ok () ∧
      consideredNames (backupLoop w a d l s).2.trace
        = consideredNames s.trace ++ l.map nameF := by
  intro l
  induction l with
  | nil => intro s hk; simp [backupLoop]
  | cons repo rest ih =>
    intro s hk
    obtain ⟨hn0, hf0⟩ := hk repo (List.mem_cons_self _ _)
    obtain ⟨n, hn⟩ := Option.isSome_iff_exists.mp hn0
    obtain ⟨fn, hf⟩ := Option.isSome_iff_exists.mp hf0
    have hrest : ∀ r ∈ rest, (pyLookup r "name").isSome ∧ (pyLookup r "full_name").isSome :=
      fun r hr => hk r (List.mem_cons_of_mem _ hr)
    simp only [backupLoop, hn, hf]
    set s1 := s.logAt LogLevel.info (LogMsg.consideringRepo n fn) with hs1
    have hquiet : quietObs (if s1.dirs.contains (d ++ "/" ++ n) = false then
        cloneRepoLocal w a (d ++ "/" ++ n) fn s1 else
        pullAllBranches w a n (d ++ "/" ++ n) s1).2.trace = quietObs s1.trace := by
      by_cases hc : s1.dirs.contains (d ++ "/" ++ n) = false
      · rw [if_pos hc]; exact cloneRepoLocal_quiet w a _ fn s1
      · rw [if_neg hc]; exact pullAllBranches_quiet w a n _ s1
    have hnintr : (if s1.dirs.contains (d ++ "/" ++ n) = false then
        cloneRepoLocal w a (d ++ "/" ++ n) fn s1 else
        pullAllBranches w a n (d ++ "/" ++ n) s1).1 ≠ Except.error Err.keyboardInterrupt := by
      by_cases hc : s1.dirs.contains (d ++ "/" ++ n) = false
      · rw [if_pos hc]; exact cloneRepoLocal_noIntr w a _ fn s1 hni
      · rw [if_neg hc]; exact pullAllBranches_noIntr w a n _ s1 hni
    generalize hstep : (if s1.dirs.contains (d ++ "/" ++ n) = false then
        cloneRepoLocal w a (d ++ "/" ++ n) fn s1 else
        pullAllBranches w a n (d ++ "/" ++ n) s1) = res
    rw [hstep] at hquiet hnintr
    obtain ⟨r, s2⟩ := res
    have hcons1 : consideredNames s1.trace = consideredNames s.trace ++ [n] := by
      rw [hs1, logAt_trace]
      simp [consideredNames, List.filterMap]
    have hcons2 : consideredNames s2.trace = consideredNames s.trace ++ [n] := by
      have h2 := congrArg Prod.fst hquiet
      simp only [quietObs] at h2
      exact h2.trans hcons1
    have hmapn : List.map nameF (repo :: rest) = n :: List.map nameF rest := by
      simp [nameF, hn]
    split
    · rename_i heq
      exact absurd heq hnintr
    · rename_i e hne heq
      show (backupLoop w a d rest
          (s2.logAt LogLevel.error (LogMsg.errorUpdatingRepo n e))).1 = Except.ok () ∧
        consideredNames (backupLoop w a d rest
          (s2.logAt LogLevel.error (LogMsg.errorUpdatingRepo n e))).2.trace
          = consideredNames s.trace ++ List.map nameF (repo :: rest)
      obtain ⟨ih1, ih2⟩ := ih (s2.logAt LogLevel.error (LogMsg.errorUpdatingRepo n e)) hrest
      refine ⟨ih1, ?_⟩
      have hl : consideredNames
          (s2.logAt LogLevel.error (LogMsg.errorUpdatingRepo n e)).trace
          = consideredNames s2.trace := by
        rw [logAt_trace]
        simp [consideredNames, List.filterMap]
      rw [ih2, hl, hcons2, hmapn]
      simp
    · rename_i u heq
      show (backupLoop w a d rest s2).1 = Except.ok () ∧
        consideredNames (backupLoop w a d rest s2).2.trace
          = consideredNames s.trace ++ List.map nameF (repo :: rest)
      obtain ⟨ih1, ih2⟩ := ih s2 hrest
      refine ⟨ih1, ?_⟩
      rw [ih2, hcons2, hmapn]
      simp

/-- Stable insertion permutes. -/
theorem py2Insert_perm (x : Repo) (l : List Repo) : (py2Insert x l).Perm (x :: l) := by
  induction l with
  | nil => exact List.Perm.refl _
  | cons y ys ih =>
    simp only [py2Insert]
    by_cases h : py2Lt y x
    · rw [if_pos h]
      exact (ih.cons y).trans (List.Perm.swap x y ys)
    · rw [if_neg h]

/-- Python 2 `sorted` returns a permutation of its input. -/
theorem pySorted_perm (l : List Repo) : (pySorted l).Perm l := by
  induction l with
  | nil => exact List.Perm.refl _
  | cons x xs ih =>
    exact (py2Insert_perm x (pySorted xs)).trans (ih.cons x)

/-- `App._run_backups`: with the record fields present and no operator
interrupt, the run never aborts and announces as considered exactly the
sorted catalog, in order. -/
theorem runBackups_main (w : World) (a : AppSt) (repos : List Repo) (s : St)
    (hni : ∀ c, (w.procs c).interrupt = false)
    (hk : ∀ r ∈ repos, (pyLookup r "name").isSome ∧ (pyLookup r "full_name").isSome) :
    (runBackups w a repos s).1 = Except.ok () ∧
    consideredNames (runBackups w a repos s).2.trace
      = consideredNames s.trace ++ (pySorted repos).map nameF := by
  have hk2 : ∀ r ∈ pySorted repos,
      (pyLookup r "name").isSome ∧ (pyLookup r "full_name").isSome :=
    fun r hr => hk r ((pySorted_perm repos).mem_iff.mp hr)
  simp only [runBackups]
  by_cases hd : s.dirs.contains (resolvePath s.cwd a.local_repodir) = false
  · rw [if_pos hd]
    have h := backupLoop_main w a (resolvePath s.cwd a.local_repodir) hni
      (pySorted repos)
      { s with dirs := s.dirs ++ [resolvePath s.cwd a.local_repodir],
               trace := s.trace ++ [Effect.makedirs (resolvePath s.cwd a.local_repodir)] }
      hk2
    refine ⟨h.1, ?_⟩
    rw [h.2]
    simp [consideredNames, List.filterMap]
  · rw [if_neg hd]
    exact backupLoop_main w a (resolvePath s.cwd a.local_repodir) hni
      (pySorted repos) s hk2

/-! ## Claims -/

/-- C1: for every catalog of repositories, if the clone or update of one
repository fails, the orchestrator loop catches the failure, logs it and
continues: with the record fields present and no operator interrupt, the
run never aborts (`Except.ok`), every repository of the catalog is
announced as considered exactly once (the considered sequence is the
sorted catalog, whose name multiset equals the catalog name multiset);
and in the concrete three-repository scenario where the middle
repository's clone is forced to fail, all three are processed, exactly
one failure is logged, and the third repository is still updated
(its `chdir` happens). -/
theorem c1_failure_isolation (w : World) (a : AppSt) (repos : List Repo) (s : St)
    (hk : ∀ r ∈ repos, (pyLookup r "name").isSome ∧ (pyLookup r "full_name").isSome)
    (hni : ∀ c, (w.procs c).interrupt = false) :
    ((runBackups w a repos s).1 = Except.ok () ∧
     consideredNames (runBackups w a repos s).2.trace
       = consideredNames s.trace ++ (pySorted repos).map nameF ∧
     ∀ nm, ((pySorted repos).map nameF).count nm = (repos.map nameF).count nm) ∧
    ((runBackups wQuiet aNorm catThree sThree).1 = Except.ok () ∧
     consideredNames (runBackups wQuiet aNorm catThree sThree).2.trace
       = ["alpha", "bravo", "carol"] ∧
     erroredRepos (runBackups wQuiet aNorm catThree sThree).2.trace = ["bravo"] ∧
     chdirTargets (runBackups wQuiet aNorm catThree sThree).2.trace
       = ["/b/alpha", "/b/carol"]) := by
  obtain ⟨h1, h2⟩ := runBackups_main w a repos s hni hk
  exact ⟨⟨h1, h2, fun nm => ((pySorted_perm repos).map nameF).count_eq nm⟩,
    rfl, by decide, by decide, by decide⟩

/-- Witness for C1 at a concrete input: two present repositories, quiet
processes. -/
theorem c1_failure_isolation_w :
    (∀ r ∈ catTwo, (pyLookup r "name").isSome ∧ (pyLookup r "full_name").isSome) ∧
    (∀ c, (wQuiet.procs c).interrupt = false) ∧
    ((runBackups wQuiet aNorm catTwo sTwoRepos).1 = Except.ok () ∧
     consideredNames (runBackups wQuiet aNorm catTwo sTwoRepos).2.trace
       = consideredNames sTwoRepos.trace ++ (pySorted catTwo).map nameF ∧
     ∀ nm, ((pySorted catTwo).map nameF).count nm = (catTwo.map nameF).count nm) :=
  ⟨by decide, fun c => rfl,
   (c1_failure_isolation wQuiet aNorm catTwo sTwoRepos (by decide) (fun c => rfl)).1⟩

/-- C2 fails on the code: on the listing
`["  origin/HEAD -> origin/master", "  origin/master"]` the update path
does not skip the symbolic HEAD entry (the filter drops the first eight
characters, including the text `origin`, before searching for the
substring `origin/HEAD`), and for each entry it runs
`git branch <line> && git pull` — creating a branch from the raw listing
line without checking anything out — rather than checking out and
pulling the branch.  The theorem evaluates the update path at that
listing: `git branch -r` is followed by one command per listing line,
the HEAD arrow entry included, each of the shape `git branch ...`. -/
theorem c2_branch_update_bug :
    loggedCmds (pullAllBranches wBranches aNorm "myrepo" "/b/myrepo" sHome).2.trace
      = ["git branch -r",
         "git branch   origin/HEAD -> origin/master && git pull",
         "git branch   origin/master && git pull"] ∧
    spawnedCmds (pullAllBranches wBranches aNorm "myrepo" "/b/myrepo" sHome).2.trace
      = ["git branch -r",
         "git branch   origin/HEAD -> origin/master && git pull",
         "git branch   origin/master && git pull"] ∧
    (pullAllBranches wBranches aNorm "myrepo" "/b/myrepo" sHome).1 = Except.ok () := by
  exact ⟨by decide, by decide, rfl⟩

/-- C3 fails on the code: for an absent repository `alpha` with container
`/backups` and working directory `/home/u`, the clone path changes into
`os.path.basename(repo_path)` — the repository's short name, relative to
the current directory — instead of the container directory its own
comment names.  That `chdir` fails, so no clone is ever spawned, no
working copy `/backups/alpha` appears, and the repository is logged as
failed. -/
theorem c3_clone_path_bug :
    pyBasename "/backups/alpha" = "alpha" ∧
    (runBackups wQuiet aBackups catAlpha sBackups).1 = Except.ok () ∧
    spawnedCmds (runBackups wQuiet aBackups catAlpha sBackups).2.trace = [] ∧
    (runBackups wQuiet aBackups catAlpha sBackups).2.dirs = ["/home/u", "/backups"] ∧
    erroredRepos (runBackups wQuiet aBackups catAlpha sBackups).2.trace = ["alpha"] := by
  exact ⟨rfl, rfl, by decide, rfl, by decide⟩

/-- C4 as stated is false: the loop sorts the raw Python 2 dict records,
not the repository names.  With records that also carry a `description`
field — alphabetically the smallest key, as in real GitHub responses —
the records are ordered by description first: the catalog `catDescr`
(names `zeta`, `alpha`, descriptions `a`, `b`) is processed
`[zeta, alpha]`, not in sorted name order `[alpha, zeta]`. -/
theorem c4_order_counterexample :
    consideredNames (runBackups wQuiet aBackups catDescr sBackups).2.trace
      = ["zeta", "alpha"] ∧
    sortKeys (catDescr.map nameF) = ["alpha", "zeta"] ∧
    consideredNames (runBackups wQuiet aBackups catDescr sBackups).2.trace
      ≠ sortKeys (catDescr.map nameF) := by
  exact ⟨by decide, rfl, by decide⟩

/-- C4 amended: the orchestrator processes the catalog in the
deterministic order given by Python 2 ordering of the full repository
records (CPython 2 dict comparison), which coincides with name order
only when the records first differ at a name-determined field. -/
theorem c4_order_amended (w : World) (a : AppSt) (repos : List Repo) (s : St)
    (hk : ∀ r ∈ repos, (pyLookup r "name").isSome ∧ (pyLookup r "full_name").isSome)
    (hni : ∀ c, (w.procs c).interrupt = false) :
    consideredNames (runBackups w a repos s).2.trace
      = consideredNames s.trace ++ (pySorted repos).map nameF :=
  (runBackups_main w a repos s hni hk).2

/-- Witness for C4 amended: the example catalog with names
`[zeta, alpha, mu]`, whose records carry exactly `name` and `full_name`,
is processed `[alpha, mu, zeta]`. -/
theorem c4_order_amended_w :
    (∀ r ∈ catZam, (pyLookup r "name").isSome ∧ (pyLookup r "full_name").isSome) ∧
    (∀ c, (wQuiet.procs c).interrupt = false) ∧
    consideredNames (runBackups wQuiet aNorm catZam sNoDir).2.trace
      = ["alpha", "mu", "zeta"] :=
  ⟨by decide, fun c => rfl,
   (c4_order_amended wQuiet aNorm catZam sNoDir (by decide) (fun c => rfl)).trans
     (by decide)⟩

/-- C5 fails on the code.  Dry-run does avoid every process execution,
but it is not pure and does not log all intended commands: (a) on a
present repository the runner returns `None`, the branch loop raises
`TypeError` iterating it (caught and logged as a repository failure),
and no pull command is ever logged — only `git branch -r` is; (b) the
container directory is still created when absent, a filesystem mutation
performed in dry-run. -/
theorem c5_dry_run_bug :
    (spawnedCmds (runBackups wBranches aDry catMyrepo sHome).2.trace = [] ∧
     loggedCmds (runBackups wBranches aDry catMyrepo sHome).2.trace
       = ["git branch -r"] ∧
     Effect.log LogLevel.error (LogMsg.errorUpdatingRepo "myrepo"
       (Err.typeError "NoneType object is not iterable"))
       ∈ (runBackups wBranches aDry catMyrepo sHome).2.trace) ∧
    (makedirsPaths (runBackups wBranches aDry ([] : List Repo) sNoDir).2.trace
       = ["/b"] ∧
     (runBackups wBranches aDry ([] : List Repo) sNoDir).2.dirs
       = ["/home/u", "/b"]) := by
  exact ⟨⟨by decide, by decide, by decide⟩, by decide, rfl⟩

/-! ## Lemmas for the catalog fetcher -/

/-- The pagination loop, whatever the oracle answers, adds neither
`consideringRepo` logs nor `spawn` effects, and leaves directory state
alone. -/
theorem fetchLoop_obs (w : World) (a : AppSt) :
    ∀ (fuel p : Nat) (acc : List Repo) (s : St),
      consideredNames (fetchLoop w a fuel p acc s).2.trace = consideredNames s.trace ∧
      spawnedCmds (fetchLoop w a fuel p acc s).2.trace = spawnedCmds s.trace ∧
      (fetchLoop w a fuel p acc s).2.cwd = s.cwd ∧
      (fetchLoop w a fuel p acc s).2.dirs = s.dirs := by
  intro fuel
  induction fuel with
  | zero => intro p acc s; simp [fetchLoop]
  | succ n ih =>
    intro p acc s
    simp only [fetchLoop]
    split
    next m heq =>
      simp [consideredNames, spawnedCmds, List.filterMap]
    next status reason body heq =>
      split
      next m2 =>
        simp [consideredNames, spawnedCmds, List.filterMap]
      next l =>
        split
        next hst =>
          simp [consideredNames, spawnedCmds, List.filterMap]
        next hst =>
          split
          next hempty =>
            simp [consideredNames, spawnedCmds, List.filterMap]
          next hempty =>
            have h := ih (p + 1) (acc ++ l)
              (((s.logAt LogLevel.debug (LogMsg.request (queryUrl a.org_name p))).emit
                (Effect.httpGet (queryUrl a.org_name p))))
            refine ⟨?_, ?_, ?_, ?_⟩
            · rw [h.1]; simp [consideredNames, List.filterMap]
            · rw [h.2.1]; simp [spawnedCmds, List.filterMap]
            · rw [h.2.2.1]; rfl
            · rw [h.2.2.2]; rfl

/-- The token reader never touches the process state. -/
theorem getGithubApiToken_st (w : World) (f : String) (s : St) :
    (getGithubApiToken w f s).2 = s := by
  simp only [getGithubApiToken]
  split
  · rfl
  · split
    · rfl
    · split
      · rfl
      · rfl

/-- The token reader fails only with `IOError`. -/
theorem getGithubApiToken_err (w : World) (f : String) (s : St) (e : Err)
    (h : (getGithubApiToken w f s).1 = Except.error e) : ∃ m, e = Err.ioError m := by
  simp only [getGithubApiToken] at h
  split at h
  · exact ⟨_, (Except.error.inj h).symm⟩
  · split at h
    · exact ⟨_, (Except.error.inj h).symm⟩
    · split at h
      · exact ⟨_, (Except.error.inj h).symm⟩
      · exact absurd h (by simp)

/-- Errors escaping the backup loop are `IOError` (the re-raised
interrupt) or `KeyError` (a record missing a field). -/
theorem backupLoop_err (w : World) (a : AppSt) (d : String) :
    ∀ (l : List Repo) (s : St) (e : Err),
      (backupLoop w a d l s).1 = Except.error e →
      (∃ m, e = Err.ioError m) ∨ (∃ m, e = Err.keyError m) := by
  intro l
  induction l with
  | nil => intro s e h; exact absurd h (by simp [backupLoop])
  | cons repo rest ih =>
    intro s e h
    simp only [backupLoop] at h
    split at h
    · exact Or.inr ⟨_, (Except.error.inj h).symm⟩
    next n hlook =>
      split at h
      · exact Or.inr ⟨_, (Except.error.inj h).symm⟩
      next fn hlook2 =>
        split at h
        · exact Or.inl ⟨_, (Except.error.inj h).symm⟩
        · exact ih _ _ h
        · exact ih _ _ h

/-- Errors escaping `_run_backups` are `IOError` or `KeyError`. -/
theorem runBackups_err (w : World) (a : AppSt) (repos : List Repo) (s : St) (e : Err)
    (h : (runBackups w a repos s).1 = Except.error e) :
    (∃ m, e = Err.ioError m) ∨ (∃ m, e = Err.keyError m) := by
  simp only [runBackups] at h
  split at h
  · exact backupLoop_err w a _ _ _ _ h
  · exact backupLoop_err w a _ _ _ _ h

/-- The fetcher wrapper shares the pagination loop invariances. -/
theorem getOrgRepos_obs (w : World) (a : AppSt) (fuel : Nat) (s : St) :
    consideredNames (getOrgRepos w a fuel s).2.trace = consideredNames s.trace ∧
    spawnedCmds (getOrgRepos w a fuel s).2.trace = spawnedCmds s.trace := by
  simp only [getOrgRepos]
  have h := fetchLoop_obs w a fuel 1 [] (s.logAt LogLevel.info LogMsg.gettingRepoList)
  split
  next e sf heq =>
    rw [heq] at h
    refine ⟨?_, ?_⟩
    · rw [h.1]; simp [consideredNames, List.filterMap]
    · rw [h.2.1]; simp [spawnedCmds, List.filterMap]
  next repos sf heq =>
    rw [heq] at h
    refine ⟨?_, ?_⟩
    · rw [logAt_trace, consideredNames_append, h.1]
      simp [consideredNames, List.filterMap]
    · rw [logAt_trace, spawnedCmds_append, h.2.1]
      simp [spawnedCmds, List.filterMap]

/-- C6 corrected.  A malformed response body is decoded by `json.loads`
before the status check and its failure is not wrapped: the fetch fails
with `ValueError`, not the catalog-fetch error `GBError`, and the error
escapes `App.main` uncaught (the counterexample shows both, at status
200 with an undecodable body). -/
theorem c6_fetch_error_counterexample :
    (getOrgRepos wJsonBad aNorm 3 sHome).1 = Except.error (Err.valueError "no json") ∧
    failedWithGb (getOrgRepos wJsonBad aNorm 3 sHome).1 = false ∧
    (appMain wJsonBad argsStd 3 sHome).1 = Except.error (Err.valueError "no json") :=
  ⟨rfl, rfl, rfl⟩

/-- C6 amended: a transport-level failure raises `GBError` carrying the
query and cause; a non-success status whose body decodes as JSON raises
`GBError` carrying the query, status and reason; a malformed body
instead raises the JSON decoder's `ValueError`, unwrapped.  Every such
failure is fatal for the run: when `App.run` ends in a `GBError` or
`ValueError`, no repository was announced as considered and no external
process was spawned. -/
theorem c6_fetch_error_amended :
    (∀ (w : World) (a : AppSt) (fuel p : Nat) (acc : List Repo) (s : St) (m : String),
      w.http (queryUrl a.org_name p) = FetchResp.transportErr m →
      (fetchLoop w a (fuel + 1) p acc s).1 = Except.error (Err.gbError
        ("error getting repos list from github, query=" ++ queryUrl a.org_name p ++
         ", err=" ++ m))) ∧
    (∀ (w : World) (a : AppSt) (fuel p : Nat) (acc : List Repo) (s : St)
        (status : Nat) (reason : String) (l : List Repo),
      w.http (queryUrl a.org_name p) = FetchResp.resp status reason (Body.jlist l) →
      status ≠ 200 →
      (fetchLoop w a (fuel + 1) p acc s).1 = Except.error (Err.gbError
        ("error getting repos list from github, query=" ++ queryUrl a.org_name p ++
         ", status=" ++ toString status ++ ", reason=" ++ reason))) ∧
    (∀ (w : World) (a : AppSt) (fuel p : Nat) (acc : List Repo) (s : St)
        (status : Nat) (reason m : String),
      w.http (queryUrl a.org_name p) = FetchResp.resp status reason (Body.notJson m) →
      (fetchLoop w a (fuel + 1) p acc s).1 = Except.error (Err.valueError m)) ∧
    (∀ (w : World) (args : Args) (fuel : Nat) (s : St) (e : Err),
      (appRun w args fuel s).1 = Except.error e →
      (e.isGb = true ∨ ∃ m, e = Err.valueError m) →
      consideredNames (appRun w args fuel s).2.trace = consideredNames s.trace ∧
      spawnedCmds (appRun w args fuel s).2.trace = spawnedCmds s.trace) := by
  refine ⟨?_, ?_, ?_, ?_⟩
  · intro w a fuel p acc s m h
    simp [fetchLoop, h]
  · intro w a fuel p acc s status reason l h hst
    simp [fetchLoop, h, hst]
  · intro w a fuel p acc s status reason m h
    simp [fetchLoop, h]
  · intro w args fuel s e happ hclass
    simp only [appRun] at happ ⊢
    split at happ
    next e1 s1 heq =>
      have hs1 : s1 = s := by
        have h0 := getGithubApiToken_st w args.token_file s
        rw [heq] at h0
        exact h0
      subst hs1
      exact ⟨rfl, rfl⟩
    next tok s1 heq =>
      have hs1 : s1 = s := by
        have h0 := getGithubApiToken_st w args.token_file s
        rw [heq] at h0
        exact h0
      subst hs1
      have hwarm : consideredNames
            (if args.dry_run then s1.logAt LogLevel.warning LogMsg.dryRunBefore else s1).trace
            = consideredNames s1.trace ∧
          spawnedCmds
            (if args.dry_run then s1.logAt LogLevel.warning LogMsg.dryRunBefore else s1).trace
            = spawnedCmds s1.trace := by
        by_cases hd : args.dry_run <;>
          simp [hd, consideredNames, spawnedCmds, List.filterMap]
      split at happ
      next e2 s2 heq2 =>
        have hobs := getOrgRepos_obs w
          { org_name := args.org_name, api_token := tok,
            local_repodir := args.local_repodir, dry_run := args.dry_run } fuel
          (if args.dry_run then s1.logAt LogLevel.warning LogMsg.dryRunBefore else s1)
        rw [heq2] at hobs
        exact ⟨hobs.1.trans hwarm.1, hobs.2.trans hwarm.2⟩
      next repos s2 heq2 =>
        split at happ
        next e3 s3 heq3 =>
          have he : e3 = e := Except.error.inj happ
          subst he
          obtain hio | hkey := runBackups_err w
            { org_name := args.org_name, api_token := tok,
              local_repodir := args.local_repodir, dry_run := args.dry_run }
            repos s2 e3 (by rw [heq3])
          · obtain ⟨m, rfl⟩ := hio
            rcases hclass with hgb | ⟨m2, hval⟩
            · exact absurd hgb (by simp [Err.isGb])
            · exact absurd hval (by simp)
          · obtain ⟨m, rfl⟩ := hkey
            rcases hclass with hgb | ⟨m2, hval⟩
            · exact absurd hgb (by simp [Err.isGb])
            · exact absurd hval (by simp)
        next u s3 heq3 =>
          exact absurd happ (by simp)
/-- Witness for C6 amended: each failure mode at concrete inputs, and
the fatality conclusion for a transport failure. -/
theorem c6_fetch_error_amended_w :
    (wTransport.http (queryUrl aNorm.org_name 1) = FetchResp.transportErr "timeout" ∧
     (fetchLoop wTransport aNorm 1 1 [] sHome).1 = Except.error (Err.gbError
       ("error getting repos list from github, query=" ++ queryUrl aNorm.org_name 1 ++
        ", err=" ++ "timeout"))) ∧
    (wStatus.http (queryUrl aNorm.org_name 1)
        = FetchResp.resp 403 "Forbidden" (Body.jlist []) ∧ 403 ≠ 200 ∧
     (fetchLoop wStatus aNorm 1 1 [] sHome).1 = Except.error (Err.gbError
       ("error getting repos list from github, query=" ++ queryUrl aNorm.org_name 1 ++
        ", status=" ++ toString 403 ++ ", reason=" ++ "Forbidden"))) ∧
    (wJsonBad.http (queryUrl aNorm.org_name 1)
        = FetchResp.resp 200 "OK" (Body.notJson "no json") ∧
     (fetchLoop wJsonBad aNorm 1 1 [] sHome).1
        = Except.error (Err.valueError "no json")) ∧
    ((appRun wTransport argsStd 3 sHome).1 = Except.error (Err.gbError
       ("error getting repos list from github, query=" ++ queryUrl "o" 1 ++
        ", err=" ++ "timeout")) ∧
     consideredNames (appRun wTransport argsStd 3 sHome).2.trace
        = consideredNames sHome.trace ∧
     spawnedCmds (appRun wTransport argsStd 3 sHome).2.trace
        = spawnedCmds sHome.trace) :=
  ⟨⟨rfl, c6_fetch_error_amended.1 wTransport aNorm 0 1 [] sHome "timeout" rfl⟩,
   ⟨rfl, by decide,
    c6_fetch_error_amended.2.1 wStatus aNorm 0 1 [] sHome 403 "Forbidden" [] rfl (by decide)⟩,
   ⟨rfl, c6_fetch_error_amended.2.2.1 wJsonBad aNorm 0 1 [] sHome 200 "OK" "no json" rfl⟩,
   ⟨rfl,
    (c6_fetch_error_amended.2.2.2 wTransport argsStd 3 sHome
      (Err.gbError ("error getting repos list from github, query=" ++ queryUrl "o" 1 ++
        ", err=" ++ "timeout")) rfl (Or.inl rfl)).1,
    (c6_fetch_error_amended.2.2.2 wTransport argsStd 3 sHome
      (Err.gbError ("error getting repos list from github, query=" ++ queryUrl "o" 1 ++
        ", err=" ++ "timeout")) rfl (Or.inl rfl)).2⟩⟩

/-! ## Lemmas for pagination exhaustiveness -/

/-- The network requests recorded by `n` pages of loop trace. -/
theorem httpGets_pageTrace (org : String) :
    ∀ (n start : Nat), httpGets (pageTrace org start n) = pageUrls org start n := by
  intro n
  induction n with
  | zero => intro start; rfl
  | succ k ih =>
    intro start
    simp only [pageTrace, pageUrls]
    rw [show (Effect.log LogLevel.debug (LogMsg.request (queryUrl org start)) ::
        Effect.httpGet (queryUrl org start) :: pageTrace org (start + 1) k)
        = [Effect.log LogLevel.debug (LogMsg.request (queryUrl org start)),
           Effect.httpGet (queryUrl org start)] ++ pageTrace org (start + 1) k from rfl]
    rw [httpGets_append, ih (start + 1)]
    rfl

/-- The pagination loop on an oracle serving `n` non-empty pages from
page `p` and an empty page at `p + n`: it returns the accumulator
extended by the concatenation of the `n` pages, requests exactly pages
`p` to `p + n`, and stops. -/
theorem fetchLoop_pages (w : World) (a : AppSt) (P : Nat → List Repo)
    (reas : Nat → String) :
    ∀ (n p fuel : Nat) (acc : List Repo) (s : St),
      (∀ i, p ≤ i → i < p + n →
        w.http (queryUrl a.org_name i)
          = FetchResp.resp 200 (reas i) (Body.jlist (P i)) ∧ P i ≠ []) →
      w.http (queryUrl a.org_name (p + n))
        = FetchResp.resp 200 (reas (p + n)) (Body.jlist []) →
      n + 1 ≤ fuel →
      fetchLoop w a fuel p acc s
        = (Except.ok (acc ++ pagesConcat P p n),
           { s with trace := s.trace ++ pageTrace a.org_name p (n + 1) }) := by
  intro n
  induction n with
  | zero =>
    intro p fuel acc s hgood hempty hfuel
    obtain ⟨f, rfl⟩ : ∃ f, fuel = f + 1 := ⟨fuel - 1, by omega⟩
    rw [Nat.add_zero] at hempty
    simp only [fetchLoop, St.logAt, St.emit, hempty]
    simp [pagesConcat, pageTrace]
  | succ k ih =>
    intro p fuel acc s hgood hempty hfuel
    obtain ⟨f, rfl⟩ : ∃ f, fuel = f + 1 := ⟨fuel - 1, by omega⟩
    obtain ⟨hp, hpne⟩ := hgood p (Nat.le_refl p) (by omega)
    simp only [fetchLoop, St.logAt, St.emit, hp]
    have hrec := ih (p + 1) f (acc ++ P p)
      { s with trace := (s.trace ++
          [Effect.log LogLevel.debug (LogMsg.request (queryUrl a.org_name p))]) ++
          [Effect.httpGet (queryUrl a.org_name p)] }
      (fun i h1 h2 => hgood i (by omega) (by omega))
      (by rw [show p + 1 + k = p + (k + 1) from by omega]; exact hempty)
      (by omega)
    simp only [hpne, if_false]
    rw [hrec]
    simp [pagesConcat, pageTrace, List.append_assoc]

/-- C7: for an API serving `k` non-empty pages and then an empty page,
the fetcher issues one GET per page with the page number incrementing
from 1 (the URLs `queryUrl` with `per_page=100` fixed), stops at the
first empty page, and returns exactly the concatenation of the `k`
pages — no omissions, no duplications, nothing else in the result. -/
theorem c7_pagination (w : World) (a : AppSt) (P : Nat → List Repo)
    (reas : Nat → String) (k fuel : Nat) (s : St)
    (hgood : ∀ i, 1 ≤ i → i ≤ k →
      w.http (queryUrl a.org_name i)
        = FetchResp.resp 200 (reas i) (Body.jlist (P i)) ∧ P i ≠ [])
    (hempty : w.http (queryUrl a.org_name (k + 1))
        = FetchResp.resp 200 (reas (k + 1)) (Body.jlist []))
    (hfuel : k + 1 ≤ fuel) :
    getOrgRepos w a fuel s
      = (Except.ok (pagesConcat P 1 k),
         { s with trace := s.trace ++ [Effect.log LogLevel.info LogMsg.gettingRepoList]
             ++ pageTrace a.org_name 1 (k + 1)
             ++ [Effect.log LogLevel.debug
                  (LogMsg.orgCount a.org_name (pagesConcat P 1 k).length)] }) ∧
    httpGets (getOrgRepos w a fuel s).2.trace
      = httpGets s.trace ++ pageUrls a.org_name 1 (k + 1) := by
  have hl := fetchLoop_pages w a P reas k 1 fuel []
    (s.logAt LogLevel.info LogMsg.gettingRepoList)
    (fun i h1 h2 => hgood i h1 (by omega))
    (by rwa [show 1 + k = k + 1 from by omega]) hfuel
  have hmain : getOrgRepos w a fuel s
      = (Except.ok (pagesConcat P 1 k),
         { s with trace := s.trace ++ [Effect.log LogLevel.info LogMsg.gettingRepoList]
             ++ pageTrace a.org_name 1 (k + 1)
             ++ [Effect.log LogLevel.debug
                  (LogMsg.orgCount a.org_name (pagesConcat P 1 k).length)] }) := by
    simp only [getOrgRepos, hl]
    simp [St.logAt, List.append_assoc]
  refine ⟨hmain, ?_⟩
  rw [hmain]
  simp only []
  rw [show (s.trace ++ [Effect.log LogLevel.info LogMsg.gettingRepoList]
       ++ pageTrace a.org_name 1 (k + 1)
       ++ [Effect.log LogLevel.debug
            (LogMsg.orgCount a.org_name (pagesConcat P 1 k).length)])
      = ((s.trace ++ [Effect.log LogLevel.info LogMsg.gettingRepoList])
         ++ pageTrace a.org_name 1 (k + 1))
        ++ [Effect.log LogLevel.debug
             (LogMsg.orgCount a.org_name (pagesConcat P 1 k).length)] from rfl]
  rw [httpGets_append, httpGets_append, httpGets_append, httpGets_pageTrace]
  simp [httpGets, List.filterMap]

/-- Witness for C7: one full page and then an empty page, served by
`wPages`; the fetcher requests pages 1 and 2 and returns the page. -/
theorem c7_pagination_w :
    (∀ i, 1 ≤ i → i ≤ 1 →
      wPages.http (queryUrl aNorm.org_name i)
        = FetchResp.resp 200 "OK" (Body.jlist ((fun _ => pageOne) i))
        ∧ (fun _ => pageOne) i ≠ ([] : List Repo)) ∧
    wPages.http (queryUrl aNorm.org_name 2)
      = FetchResp.resp 200 "OK" (Body.jlist []) ∧
    (getOrgRepos wPages aNorm 5 sNoDir).1
      = Except.ok (pagesConcat (fun _ => pageOne) 1 1) ∧
    pagesConcat (fun _ => pageOne) 1 1 = pageOne ∧
    httpGets (getOrgRepos wPages aNorm 5 sNoDir).2.trace
      = httpGets sNoDir.trace ++ pageUrls aNorm.org_name 1 2 ∧
    pageUrls aNorm.org_name 1 2 = [queryUrl "o" 1, queryUrl "o" 2] := by
  have hg : ∀ i, 1 ≤ i → i ≤ 1 →
      wPages.http (queryUrl aNorm.org_name i)
        = FetchResp.resp 200 "OK" (Body.jlist ((fun _ => pageOne) i))
        ∧ (fun _ => pageOne) i ≠ ([] : List Repo) := by
    intro i h1 h2
    have hi : i = 1 := by omega
    subst hi
    exact ⟨rfl, by decide⟩
  have h := c7_pagination wPages aNorm (fun _ => pageOne) (fun _ => "OK") 1 5 sNoDir
    hg (by decide) (by omega)
  exact ⟨hg, by decide, by rw [h.1], by decide, h.2, by decide⟩

/-- C9: when the credential file exists but the file or its parent
directory carries any group or other permission bit, the run fails with
a fatal configuration error — exit status 1 after one fatal `IOError`
log — and the trace gains nothing else: in particular no network
request and no process execution ever happens. -/
theorem c9_credential_gate (w : World) (args : Args) (fuel : Nat) (s : St)
    (hex : w.fileExists (expanduser w.home args.token_file) = true)
    (hbad : ((w.statMode (pyDirname (expanduser w.home args.token_file)) &&& 0o777)
               &&& 0o77) ≠ 0 ∨
            ((w.statMode (expanduser w.home args.token_file) &&& 0o777) &&& 0o77) ≠ 0) :
    (appMain w args fuel s).1 = Except.ok 1 ∧
    (∃ m, (appMain w args fuel s).2.trace
       = s.trace ++ [Effect.log LogLevel.error (LogMsg.mainFatal (Err.ioError m))]) ∧
    httpGets (appMain w args fuel s).2.trace = httpGets s.trace ∧
    spawnedCmds (appMain w args fuel s).2.trace = spawnedCmds s.trace := by
  by_cases h1 : ((w.statMode (pyDirname (expanduser w.home args.token_file)) &&& 0o777)
      &&& 0o77) = 0
  · have h2 : ((w.statMode (expanduser w.home args.token_file) &&& 0o777) &&& 0o77) ≠ 0 := by
      rcases hbad with hb | hb
      · exact absurd h1 hb
      · exact hb
    have htok : getGithubApiToken w args.token_file s
        = (Except.error (Err.ioError ("bad permissions mode on file "
            ++ expanduser w.home args.token_file ++ ", must be owner-access-only")), s) := by
      simp [getGithubApiToken, hex, h1, h2]
    have happ : appRun w args fuel s
        = (Except.error (Err.ioError ("bad permissions mode on file "
            ++ expanduser w.home args.token_file ++ ", must be owner-access-only")), s) := by
      simp only [appRun, htok]
    have hmain : appMain w args fuel s
        = (Except.ok 1, s.logAt LogLevel.error (LogMsg.mainFatal (Err.ioError
            ("bad permissions mode on file " ++ expanduser w.home args.token_file
              ++ ", must be owner-access-only")))) := by
      simp only [appMain, happ]
    rw [hmain]
    refine ⟨rfl, ⟨_, rfl⟩, ?_, ?_⟩ <;>
      simp [httpGets, spawnedCmds, List.filterMap]
  · have htok : getGithubApiToken w args.token_file s
        = (Except.error (Err.ioError ("bad permissions mode on directory "
            ++ pyDirname (expanduser w.home args.token_file)
            ++ ", must be owner-access-only")), s) := by
      simp [getGithubApiToken, hex, h1]
    have happ : appRun w args fuel s
        = (Except.error (Err.ioError ("bad permissions mode on directory "
            ++ pyDirname (expanduser w.home args.token_file)
            ++ ", must be owner-access-only")), s) := by
      simp only [appRun, htok]
    have hmain : appMain w args fuel s
        = (Except.ok 1, s.logAt LogLevel.error (LogMsg.mainFatal (Err.ioError
            ("bad permissions mode on directory "
              ++ pyDirname (expanduser w.home args.token_file)
              ++ ", must be owner-access-only")))) := by
      simp only [appMain, happ]
    rw [hmain]
    refine ⟨rfl, ⟨_, rfl⟩, ?_, ?_⟩ <;>
      simp [httpGets, spawnedCmds, List.filterMap]

/-- Witness for C9: a group-readable credential file (mode 640) under an
owner-only directory, with `wPerm`. -/
theorem c9_credential_gate_w :
    wPerm.fileExists (expanduser wPerm.home argsStd.token_file) = true ∧
    ((wPerm.statMode (expanduser wPerm.home argsStd.token_file) &&& 0o777) &&& 0o77) ≠ 0 ∧
    (appMain wPerm argsStd 3 sHome).1 = Except.ok 1 ∧
    httpGets (appMain wPerm argsStd 3 sHome).2.trace = httpGets sHome.trace ∧
    spawnedCmds (appMain wPerm argsStd 3 sHome).2.trace = spawnedCmds sHome.trace := by
  have h := c9_credential_gate wPerm argsStd 3 sHome rfl (Or.inr (by decide))
  exact ⟨rfl, by decide, h.1, h.2.2.1, h.2.2.2⟩

/-! ## Lemmas about working-directory evolution -/

theorem getLastD_append (a b : List String) (d : String) :
    (a ++ b).getLastD d = b.getLastD (a.getLastD d) := by
  cases b with
  | nil => simp
  | cons x xs =>
    rw [List.getLastD_eq_getLast?, List.getLastD_eq_getLast?, List.getLast?_append]
    cases hx : (x :: xs).getLast? <;> simp [hx]

theorem cwdTracks_refl (s : St) : cwdTracks s s :=
  ⟨[], by simp, by simp [chdirTargets, List.filterMap, List.getLastD]⟩

theorem cwdTracks_trans {s1 s2 s3 : St} (h1 : cwdTracks s1 s2) (h2 : cwdTracks s2 s3) :
    cwdTracks s1 s3 := by
  obtain ⟨d1, ht1, hc1⟩ := h1
  obtain ⟨d2, ht2, hc2⟩ := h2
  refine ⟨d1 ++ d2, ?_, ?_⟩
  · rw [ht2, ht1, List.append_assoc]
  · rw [hc2, chdirTargets_append, getLastD_append, hc1]

theorem cwdTracks_logAt (s : St) (lv : LogLevel) (m : LogMsg) :
    cwdTracks s (s.logAt lv m) :=
  ⟨[Effect.log lv m], rfl, by simp [chdirTargets, List.filterMap, List.getLastD]⟩

theorem cwdTracks_osChdir (p : String) (s : St) : cwdTracks s (osChdir p s).2 := by
  by_cases h : resolvePath s.cwd p ∈ s.dirs
  · refine ⟨[Effect.chdir (resolvePath s.cwd p)], ?_, ?_⟩
    · simp [osChdir, h]
    · simp [osChdir, h, chdirTargets, List.filterMap, List.getLastD]
  · refine ⟨[], ?_, ?_⟩
    · simp [osChdir, h]
    · simp [osChdir, h, chdirTargets, List.filterMap, List.getLastD]

theorem cwdTracks_nbPollLoop (c : Bool) :
    ∀ (t : List (List String × List String)) ob eb acc (s : St),
      cwdTracks s (nbPollLoop c ob eb t acc s).2 := by
  intro t
  induction t with
  | nil => intro ob eb acc s; exact cwdTracks_refl s
  | cons hd rest ih =>
    intro ob eb acc s
    obtain ⟨o, e⟩ := hd
    simp only [nbPollLoop]
    cases houtBuf : ob ++ o with
    | nil =>
      cases herrBuf : eb ++ e with
      | nil => exact ih _ _ _ _
      | cons l ls => exact cwdTracks_trans (cwdTracks_logAt ..) (ih _ _ _ _)
    | cons l ls =>
      cases c with
      | false =>
        cases herrBuf : eb ++ e with
        | nil => exact cwdTracks_trans (cwdTracks_logAt ..) (ih _ _ _ _)
        | cons l2 ls2 =>
          exact cwdTracks_trans (cwdTracks_logAt ..)
            (cwdTracks_trans (cwdTracks_logAt ..) (ih _ _ _ _))
      | true =>
        cases herrBuf : eb ++ e with
        | nil => exact ih _ _ _ _
        | cons l2 ls2 => exact cwdTracks_trans (cwdTracks_logAt ..) (ih _ _ _ _)

theorem cwdTracks_runSystemCmdNb (w : World) (a : AppSt) (cmd ctl : String) (s : St) :
    cwdTracks s (runSystemCmdNb w a cmd ctl s).2 := by
  unfold runSystemCmdNb
  cases hdry : a.dry_run with
  | true => exact cwdTracks_logAt ..
  | false =>
    simp only [Bool.false_eq_true, if_false]
    cases hint : (w.procs cmd).interrupt with
    | true =>
      simp only [if_true]
      exact cwdTracks_trans (cwdTracks_logAt ..)
        ⟨[Effect.spawn cmd], rfl, by simp [chdirTargets, List.filterMap, List.getLastD]⟩
    | false =>
      simp only [Bool.false_eq_true, if_false]
      exact cwdTracks_trans
        ⟨[Effect.log LogLevel.info (LogMsg.runningCmd cmd), Effect.spawn cmd],
         by simp [St.logAt, St.emit],
         by simp [chdirTargets, List.filterMap, List.getLastD, St.logAt, St.emit]⟩
        (cwdTracks_trans
          (cwdTracks_nbPollLoop (ctl = "return") (w.procs cmd).ticks
            (w.procs cmd).preOut (w.procs cmd).preErr [] _)
          (cwdTracks_logAt ..))

theorem cwdTracks_pullBranchLoop (w : World) (a : AppSt) (rn : String) :
    ∀ (bs : List String) (s : St), cwdTracks s (pullBranchLoop w a rn bs s).2 := by
  intro bs
  induction bs with
  | nil => intro s; exact cwdTracks_refl s
  | cons b rest ih =>
    intro s
    simp only [pullBranchLoop]
    by_cases hb : strContains (b.drop 8) "origin/HEAD"
    · simpa [hb] using ih s
    · simp only [hb, Bool.false_eq_true, if_false]
      split
      next e s2 heq =>
        have h := cwdTracks_runSystemCmdNb w a ("git branch " ++ b ++ " && git pull") "log"
          (s.logAt LogLevel.info (LogMsg.updatingBranch rn b))
        rw [heq] at h
        exact cwdTracks_trans (cwdTracks_logAt ..) h
      next v s2 heq =>
        have h := cwdTracks_runSystemCmdNb w a ("git branch " ++ b ++ " && git pull") "log"
          (s.logAt LogLevel.info (LogMsg.updatingBranch rn b))
        rw [heq] at h
        exact cwdTracks_trans (cwdTracks_trans (cwdTracks_logAt ..) h) (ih s2)

theorem cwdTracks_pullAllBranches (w : World) (a : AppSt) (rn rp : String) (s : St) :
    cwdTracks s (pullAllBranches w a rn rp s).2 := by
  simp only [pullAllBranches]
  split
  next e sc heq =>
    have h := cwdTracks_osChdir rp (s.logAt LogLevel.info (LogMsg.updatingLocalRepo rp))
    rw [heq] at h
    exact cwdTracks_trans (cwdTracks_logAt ..) h
  next u sc heq =>
    have h := cwdTracks_osChdir rp (s.logAt LogLevel.info (LogMsg.updatingLocalRepo rp))
    rw [heq] at h
    have hsc : cwdTracks s sc := cwdTracks_trans (cwdTracks_logAt ..) h
    split
    next e2 s4 heq2 =>
      have h2 := cwdTracks_runSystemCmdNb w a "git branch -r" "return"
        (sc.logAt LogLevel.info (LogMsg.currentDirectory sc.cwd))
      rw [heq2] at h2
      exact cwdTracks_trans hsc (cwdTracks_trans (cwdTracks_logAt ..) h2)
    next s4 heq2 =>
      have h2 := cwdTracks_runSystemCmdNb w a "git branch -r" "return"
        (sc.logAt LogLevel.info (LogMsg.currentDirectory sc.cwd))
      rw [heq2] at h2
      exact cwdTracks_trans hsc (cwdTracks_trans (cwdTracks_logAt ..) h2)
    next bs s4 heq2 =>
      have h2 := cwdTracks_runSystemCmdNb w a "git branch -r" "return"
        (sc.logAt LogLevel.info (LogMsg.currentDirectory sc.cwd))
      rw [heq2] at h2
      exact cwdTracks_trans hsc (cwdTracks_trans
        (cwdTracks_trans (cwdTracks_logAt ..) h2) (cwdTracks_pullBranchLoop w a rn bs s4))

theorem cwdTracks_cloneRepoLocal (w : World) (a : AppSt) (rp fn : String) (s : St) :
    cwdTracks s (cloneRepoLocal w a rp fn s).2 := by
  simp only [cloneRepoLocal]
  split
  next e sc heq =>
    have h := cwdTracks_osChdir (pyBasename rp)
      (s.logAt LogLevel.info (LogMsg.creatingLocalRepo rp))
    rw [heq] at h
    exact cwdTracks_trans (cwdTracks_logAt ..) h
  next u sc heq =>
    have h := cwdTracks_osChdir (pyBasename rp)
      (s.logAt LogLevel.info (LogMsg.creatingLocalRepo rp))
    rw [heq] at h
    have hsc : cwdTracks s sc := cwdTracks_trans (cwdTracks_logAt ..) h
    split
    next e2 s4 heq2 =>
      have h2 := cwdTracks_runSystemCmdNb w a ("git clone git@github.com:" ++ fn ++ ".git")
        "log" (sc.logAt LogLevel.info (LogMsg.currentDirectory sc.cwd))
      rw [heq2] at h2
      exact cwdTracks_trans hsc (cwdTracks_trans (cwdTracks_logAt ..) h2)
    next v s4 heq2 =>
      have h2 := cwdTracks_runSystemCmdNb w a ("git clone git@github.com:" ++ fn ++ ".git")
        "log" (sc.logAt LogLevel.info (LogMsg.currentDirectory sc.cwd))
      rw [heq2] at h2
      exact cwdTracks_trans hsc (cwdTracks_trans
        (cwdTracks_trans (cwdTracks_logAt ..) h2) (cwdTracks_osChdir rp s4))

theorem cwdTracks_backupLoop (w : World) (a : AppSt) (d : String) :
    ∀ (l : List Repo) (s : St), cwdTracks s (backupLoop w a d l s).2 := by
  intro l
  induction l with
  | nil => intro s; exact cwdTracks_refl s
  | cons repo rest ih =>
    intro s
    simp only [backupLoop]
    split
    · exact cwdTracks_refl s
    next n hlook =>
      split
      · exact cwdTracks_refl s
      next fn hlook2 =>
        have hstep : cwdTracks s
            (if (s.logAt LogLevel.info (LogMsg.consideringRepo n fn)).dirs.contains
                (d ++ "/" ++ n) = false then
              cloneRepoLocal w a (d ++ "/" ++ n) fn
                (s.logAt LogLevel.info (LogMsg.consideringRepo n fn))
            else
              pullAllBranches w a n (d ++ "/" ++ n)
                (s.logAt LogLevel.info (LogMsg.consideringRepo n fn))).2 := by
          by_cases hc : (s.logAt LogLevel.info (LogMsg.consideringRepo n fn)).dirs.contains
              (d ++ "/" ++ n) = false
          · rw [if_pos hc]
            exact cwdTracks_trans (cwdTracks_logAt ..) (cwdTracks_cloneRepoLocal ..)
          · rw [if_neg hc]
            exact cwdTracks_trans (cwdTracks_logAt ..) (cwdTracks_pullAllBranches ..)
        split
        · exact hstep
        next e hne heq =>
          exact cwdTracks_trans (cwdTracks_trans hstep (cwdTracks_logAt ..)) (ih _)
        next u heq =>
          exact cwdTracks_trans hstep (ih _)

theorem cwdTracks_runBackups (w : World) (a : AppSt) (repos : List Repo) (s : St) :
    cwdTracks s (runBackups w a repos s).2 := by
  simp only [runBackups]
  by_cases hd : s.dirs.contains (resolvePath s.cwd a.local_repodir) = false
  · rw [if_pos hd]
    have hmid : cwdTracks s
        { s with dirs := s.dirs ++ [resolvePath s.cwd a.local_repodir],
                 trace := s.trace ++ [Effect.makedirs (resolvePath s.cwd a.local_repodir)] } :=
      ⟨[Effect.makedirs (resolvePath s.cwd a.local_repodir)], rfl,
       by simp [chdirTargets, List.filterMap, List.getLastD]⟩
    exact cwdTracks_trans hmid (cwdTracks_backupLoop ..)
  · rw [if_neg hd]
    exact cwdTracks_backupLoop ..

/-- A successful `chdir` lands on the resolved path. -/
theorem osChdir_cwd_of_ok (p : String) (s : St) (u : Unit)
    (h : (osChdir p s).1 = Except.ok u) :
    (osChdir p s).2.cwd = resolvePath s.cwd p := by
  by_cases hm : resolvePath s.cwd p ∈ s.dirs
  · simp [osChdir, hm]
  · simp [osChdir, hm] at h

/-- Resolving an absolute path ignores the working directory. -/
theorem resolvePath_abs (c p : String) (h : startsWithS p "/" = true) :
    resolvePath c p = p := by
  simp [resolvePath, h]

/-- C10: the synchronizer permanently moves the process working
directory and nothing restores it.  (1) A successful update of a
present repository leaves the process inside the repository path.
(2) A successful clone-path run likewise ends inside the repository
path (its final `os.chdir(repo_path)`).  (3) Throughout
`App._run_backups` the working directory is always wherever the last
successful `chdir` pointed — there is no restore.  (4) In a concrete
two-repository run the working directory drifts from `/home/u` to
`/b/alpha` and then `/b/beta` and stays there; the second repository is
still reached at its absolute path `/b/beta` because the container path
was absolutized once, before the loop. -/
theorem c10_cwd_leak :
    (∀ (w : World) (a : AppSt) (rn rp : String) (s : St),
      (pullAllBranches w a rn rp s).1 = Except.ok () → startsWithS rp "/" = true →
      (pullAllBranches w a rn rp s).2.cwd = rp) ∧
    (∀ (w : World) (a : AppSt) (rp fn : String) (s : St),
      (cloneRepoLocal w a rp fn s).1 = Except.ok () → startsWithS rp "/" = true →
      (cloneRepoLocal w a rp fn s).2.cwd = rp) ∧
    (∀ (w : World) (a : AppSt) (repos : List Repo) (s : St),
      cwdTracks s (runBackups w a repos s).2) ∧
    (chdirTargets (runBackups wQuiet aNorm catTwo sTwoRepos).2.trace
       = ["/b/alpha", "/b/beta"] ∧
     (runBackups wQuiet aNorm catTwo sTwoRepos).2.cwd = "/b/beta" ∧
     sTwoRepos.cwd = "/home/u" ∧ ("/b/beta" : String) ≠ "/home/u") := by
  refine ⟨?_, ?_, fun w a repos s => cwdTracks_runBackups w a repos s,
    by decide, rfl, rfl, by decide⟩
  · intro w a rn rp s hok habs
    simp only [pullAllBranches] at hok ⊢
    split at hok
    next e sc heq =>
      exact absurd hok (by simp)
    next u sc heq =>
      have hsc : sc.cwd = rp := by
        have h0 := osChdir_cwd_of_ok rp (s.logAt LogLevel.info (LogMsg.updatingLocalRepo rp))
          u (by rw [heq])
        rw [heq] at h0
        rw [h0, logAt_cwd, resolvePath_abs _ _ habs]
      split at hok
      next e2 s4 heq2 =>
        exact absurd hok (by simp)
      next s4 heq2 =>
        exact absurd hok (by simp)
      next bs s4 heq2 =>
        have h4 : s4.cwd = sc.cwd := by
          have h1 := (runSystemCmdNb_st w a "git branch -r" "return"
            (sc.logAt LogLevel.info (LogMsg.currentDirectory sc.cwd))).1
          rw [heq2] at h1
          rw [h1, logAt_cwd]
        rw [(pullBranchLoop_st w a rn bs s4).1, h4, hsc]
  · intro w a rp fn s hok habs
    simp only [cloneRepoLocal] at hok ⊢
    split at hok
    next e sc heq =>
      exact absurd hok (by simp)
    next u sc heq =>
      split at hok
      next e2 s4 heq2 =>
        exact absurd hok (by simp)
      next v s4 heq2 =>
        rw [osChdir_cwd_of_ok rp s4 () hok, resolvePath_abs _ _ habs]

/-- Witness for C10 at a concrete input: the update path of a present
repository ends with the process inside the repository directory. -/
theorem c10_cwd_leak_w :
    (pullAllBranches wQuiet aNorm "alpha" "/b/alpha" sTwoRepos).1 = Except.ok () ∧
    startsWithS "/b/alpha" "/" = true ∧
    (pullAllBranches wQuiet aNorm "alpha" "/b/alpha" sTwoRepos).2.cwd = "/b/alpha" :=
  ⟨rfl, rfl, c10_cwd_leak.1 wQuiet aNorm "alpha" "/b/alpha" sTwoRepos rfl rfl⟩

/-- C8 fails on the code: the runner polls only while `proc.poll()` is
`None` and performs no drain after the child exits, so trailing output
is lost.  A child that exits before the first poll with `hello`
buffered yields an empty capture (and in log mode the line is never
logged: the trace holds exactly the command log, the spawn and the
return-code log); a child that emits two lines during its single alive
tick loses the second. -/
theorem c8_runner_drain_bug :
    (runSystemCmdNb wPre aNorm "acmd" "return" sHome).1 = Except.ok (some []) ∧
    Effect.log LogLevel.info (LogMsg.stdoutLine "hello")
      ∉ (runSystemCmdNb wPre aNorm "acmd" "log" sHome).2.trace ∧
    (runSystemCmdNb wPre aNorm "acmd" "log" sHome).2.trace
      = sHome.trace ++ [Effect.log LogLevel.info (LogMsg.runningCmd "acmd"),
          Effect.spawn "acmd",
          Effect.log LogLevel.debug (LogMsg.procReturncode 0)] ∧
    (runSystemCmdNb wTwo aNorm "acmd" "return" sHome).1 = Except.ok (some ["a"]) := by
  exact ⟨rfl, by decide, by decide, rfl⟩

end GithubBackup
